import Mathlib

set_option maxHeartbeats 1000000

/-!
Shallow embedding of `main.py` of the APITestingBot repository: the command
handlers `handle_get`, `handle_post_put` and `handle_delete`, together with
models of the library functions they call (`str.split`, `json.loads`,
`json.dumps`, the `requests` JSON body encoding, and python-telegram-bot's
`context.args`).  Strings are modelled as their lists of characters
(Python counts code points, as does `List Char`), JSON numbers as integers
(floating-point values are outside the embedding), and the network as an
oracle `RequestSpec → ExecOutcome` passed to each handler.  A handler
invocation is recorded as the list of messages sent via `reply_text` plus
the outbound request, if any.
-/

/- ## Basic string utilities -/

/-- Character count of a string (Python `len` on `str`). -/
def strLen (s : String) : Nat := s.data.length

/-- Python slicing `s[:n]` by characters. -/
def strTake (s : String) (n : Nat) : String := ⟨s.data.take n⟩

/-- Python `str.lower` (ASCII is all the source needs). -/
def lowerStr (s : String) : String := ⟨s.data.map Char.toLower⟩

/-- Does `p` occur at the start of `l`?  (Model of Python `str.startswith`.) -/
def leadsWith : List Char → List Char → Bool
  | [], _ => true
  | _ :: _, [] => false
  | p :: ps, c :: cs => p = c && leadsWith ps cs

/-- The URL scheme check of `main.py`:
`url.startswith("http://") or url.startswith("https://")`. -/
def schemeOk (url : String) : Bool :=
  leadsWith "http://".data url.data || leadsWith "https://".data url.data

/-- Characters Python `str.split()` (no separator) treats as whitespace. -/
def isPyWs (c : Char) : Bool :=
  c = ' ' || c = '\t' || c = '\n' || c = '\r' || c = '\x0b' || c = '\x0c'

def wsTokensAux : List Char → List Char → List String
  | [], cur => if cur.isEmpty then [] else [⟨cur.reverse⟩]
  | c :: cs, cur =>
    if isPyWs c then
      if cur.isEmpty then wsTokensAux cs [] else ⟨cur.reverse⟩ :: wsTokensAux cs []
    else wsTokensAux cs (c :: cur)

/-- Python `s.split()`: split on runs of whitespace, discarding empty fields. -/
def wsTokens (s : String) : List String := wsTokensAux s.data []

def splitSpaceAux : List Char → List Char → List (List Char)
  | [], cur => [cur.reverse]
  | c :: cs, cur =>
    if c = ' ' then cur.reverse :: splitSpaceAux cs [] else splitSpaceAux cs (c :: cur)

/-- Python `s.split(' ')`: split at every single space character,
keeping empty fields. -/
def pySplitAll (s : String) : List String := (splitSpaceAux s.data []).map fun l => ⟨l⟩

def joinSpace : List String → String
  | [] => ""
  | [s] => s
  | s :: rest => s ++ " " ++ joinSpace rest

/-- Python `s.split(' ', 2)`: at most two splits, each at a single space
character; the third field keeps the rest of the text verbatim. -/
def pySplit2 (s : String) : List String :=
  match pySplitAll s with
  | a :: b :: c :: rest => [a, b, joinSpace (c :: rest)]
  | parts => parts

/- ## JSON data model and serializer -/

/-- JSON values as Python `json` models them, with numbers restricted to
integers (floating-point numbers are outside the embedding). -/
inductive Json where
  | null
  | bool (b : Bool)
  | num (n : Int)
  | str (s : String)
  | arr (elems : List Json)
  | obj (fields : List (String × Json))

def natCharsAux : Nat → Nat → List Char
  | 0, _ => []
  | fuel + 1, n =>
    if n < 10 then [Char.ofNat (48 + n)]
    else natCharsAux fuel (n / 10) ++ [Char.ofNat (48 + n % 10)]

/-- Decimal digits of a natural number (fuel-indexed so it computes). -/
def natChars (n : Nat) : List Char := natCharsAux (n + 1) n

/-- Python `repr` of an `int`, as used by `json.dumps` and f-strings. -/
def intChars (i : Int) : List Char :=
  if i < 0 then '-' :: natChars i.natAbs else natChars i.natAbs

/-- Decimal rendering of a `Nat` (used for f-string interpolation of
`status_code`). -/
def natStr (n : Nat) : String := ⟨natChars n⟩

/-- JSON string escaping as `json.dumps(..., ensure_ascii=False)` performs it:
the two mandatory escapes, short forms for the common control characters, and
`\u00xx` for the remaining control characters; everything else verbatim. -/
def escChar (c : Char) : List Char :=
  if c = '"' then ['\\', '"']
  else if c = '\\' then ['\\', '\\']
  else if c = '\n' then ['\\', 'n']
  else if c = '\t' then ['\\', 't']
  else if c = '\r' then ['\\', 'r']
  else if c = '\x08' then ['\\', 'b']
  else if c = '\x0c' then ['\\', 'f']
  else if c.toNat < 32 then
    ['\\', 'u', '0', '0',
     Char.ofNat (if c.toNat / 16 < 10 then 48 + c.toNat / 16 else 87 + c.toNat / 16),
     Char.ofNat (if c.toNat % 16 < 10 then 48 + c.toNat % 16 else 87 + c.toNat % 16)]
  else [c]

def escChars : List Char → List Char
  | [] => []
  | c :: cs => escChar c ++ escChars cs

def ullChars : List Char := ['u', 'l', 'l']
def rueChars : List Char := ['r', 'u', 'e']
def alseChars : List Char := ['a', 'l', 's', 'e']

mutual
/-- Compact serialization: `json.dumps(v)` with the default separators
`", "` and `": "`, as the `requests` library applies it to the `json=`
argument of `requests.post` / `requests.put`. -/
def dumpsChars : Json → List Char
  | .null => 'n' :: ullChars
  | .bool true => 't' :: rueChars
  | .bool false => 'f' :: alseChars
  | .num n => intChars n
  | .str s => '"' :: (escChars s.data ++ ['"'])
  | .arr [] => ['[', ']']
  | .arr (x :: xs) => '[' :: (dumpsChars x ++ dumpsArrTail xs ++ [']'])
  | .obj [] => ['\x7b', '\x7d']
  | .obj ((k, v) :: kvs) =>
      '\x7b' :: ('"' :: (escChars k.data ++ ['"', ':', ' ']) ++ dumpsChars v ++ dumpsObjTail kvs ++ ['\x7d'])

def dumpsArrTail : List Json → List Char
  | [] => []
  | x :: xs => ',' :: ' ' :: (dumpsChars x ++ dumpsArrTail xs)

def dumpsObjTail : List (String × Json) → List Char
  | [] => []
  | (k, v) :: kvs =>
      ',' :: ' ' :: ('"' :: (escChars k.data ++ ['"', ':', ' ']) ++ dumpsChars v ++ dumpsObjTail kvs)
end

/-- `json.dumps(v)` with default options, as used for the outbound body. -/
def json_dumps (v : Json) : String := ⟨dumpsChars v⟩

def indentChars (n : Nat) : List Char := List.replicate n ' '

mutual
/-- `json.dumps(v, indent=2, ensure_ascii=False)`: every container item on
its own line, two more spaces of indentation per nesting level. -/
def dumpsInd : Nat → Json → List Char
  | _, .null => 'n' :: ullChars
  | _, .bool true => 't' :: rueChars
  | _, .bool false => 'f' :: alseChars
  | _, .num n => intChars n
  | _, .str s => '"' :: (escChars s.data ++ ['"'])
  | _, .arr [] => ['[', ']']
  | lvl, .arr (x :: xs) =>
      '[' :: '\n' :: (indentChars (2 * (lvl + 1)) ++ dumpsInd (lvl + 1) x ++ dumpsIndArr (lvl + 1) xs
        ++ '\n' :: indentChars (2 * lvl) ++ [']'])
  | _, .obj [] => ['\x7b', '\x7d']
  | lvl, .obj ((k, v) :: kvs) =>
      '\x7b' :: '\n' :: (indentChars (2 * (lvl + 1)) ++ '"' :: (escChars k.data ++ ['"', ':', ' '])
        ++ dumpsInd (lvl + 1) v ++ dumpsIndObj (lvl + 1) kvs
        ++ '\n' :: indentChars (2 * lvl) ++ ['\x7d'])

def dumpsIndArr : Nat → List Json → List Char
  | _, [] => []
  | lvl, x :: xs => ',' :: '\n' :: (indentChars (2 * lvl) ++ dumpsInd lvl x ++ dumpsIndArr lvl xs)

def dumpsIndObj : Nat → List (String × Json) → List Char
  | _, [] => []
  | lvl, (k, v) :: kvs =>
      ',' :: '\n' :: (indentChars (2 * lvl) ++ '"' :: (escChars k.data ++ ['"', ':', ' '])
        ++ dumpsInd lvl v ++ dumpsIndObj lvl kvs)
end

/-- `json.dumps(v, indent=2, ensure_ascii=False)`, the pretty form
`main.py` uses for response bodies and headers. -/
def dumpsIndent2 (v : Json) : String := ⟨dumpsInd 0 v⟩

/- ## JSON parser (model of json.loads) -/

/-- Failure kinds of the CPython `json` scanner, with the leading text of the
`JSONDecodeError` message each produces (the `line/column/char` suffix of the
real message is not modelled). -/
inductive JsonErrKind where
  | expectingValue
  | unterminatedString
  | invalidEscape
  | invalidControlChar
  | expectingCommaDelim
  | expectingColonDelim
  | expectingPropertyName
  | extraData
  | depthExceeded
deriving DecidableEq

def JsonErrKind.message : JsonErrKind → String
  | .expectingValue => "Expecting value"
  | .unterminatedString => "Unterminated string starting at"
  | .invalidEscape => "Invalid \\escape"
  | .invalidControlChar => "Invalid control character at"
  | .expectingCommaDelim => "Expecting \x27,\x27 delimiter"
  | .expectingColonDelim => "Expecting \x27:\x27 delimiter"
  | .expectingPropertyName => "Expecting property name enclosed in double quotes"
  | .extraData => "Extra data"
  | .depthExceeded => "Maximum recursion depth exceeded"

/-- The whitespace characters the JSON grammar skips. -/
def isWsCh (c : Char) : Bool := c = ' ' || c = '\t' || c = '\n' || c = '\r'

def skipWs : List Char → List Char
  | [] => []
  | c :: cs => if isWsCh c then skipWs cs else c :: cs

def hexVal (c : Char) : Option Nat :=
  if 48 ≤ c.toNat ∧ c.toNat ≤ 57 then some (c.toNat - 48)
  else if 97 ≤ c.toNat ∧ c.toNat ≤ 102 then some (c.toNat - 87)
  else if 65 ≤ c.toNat ∧ c.toNat ≤ 70 then some (c.toNat - 55)
  else none

mutual
/-- Body of a JSON string after the opening quote: returns the decoded
characters and the input following the closing quote. -/
def parseStrBody : List Char → Except JsonErrKind (List Char × List Char)
  | [] => .error .unterminatedString
  | c :: rest =>
    if c = '"' then .ok ([], rest)
    else if c = '\\' then parseEsc rest
    else if c.toNat < 32 then .error .invalidControlChar
    else (parseStrBody rest).map fun p => (c :: p.1, p.2)

/-- One escape sequence after a backslash. -/
def parseEsc : List Char → Except JsonErrKind (List Char × List Char)
  | [] => .error .unterminatedString
  | e :: cs =>
    if e = '"' then (parseStrBody cs).map fun p => ('"' :: p.1, p.2)
    else if e = '\\' then (parseStrBody cs).map fun p => ('\\' :: p.1, p.2)
    else if e = '/' then (parseStrBody cs).map fun p => ('/' :: p.1, p.2)
    else if e = 'n' then (parseStrBody cs).map fun p => ('\n' :: p.1, p.2)
    else if e = 't' then (parseStrBody cs).map fun p => ('\t' :: p.1, p.2)
    else if e = 'r' then (parseStrBody cs).map fun p => ('\r' :: p.1, p.2)
    else if e = 'b' then (parseStrBody cs).map fun p => ('\x08' :: p.1, p.2)
    else if e = 'f' then (parseStrBody cs).map fun p => ('\x0c' :: p.1, p.2)
    else if e = 'u' then
      match cs with
      | h1 :: h2 :: h3 :: h4 :: cs' =>
        match hexVal h1, hexVal h2, hexVal h3, hexVal h4 with
        | some a, some b, some c, some d =>
          (parseStrBody cs').map fun p => (Char.ofNat (((a * 16 + b) * 16 + c) * 16 + d) :: p.1, p.2)
        | _, _, _, _ => .error .invalidEscape
      | _ => .error .invalidEscape
    else .error .invalidEscape
end

def digitsVal : List Char → Nat → Nat
  | [], acc => acc
  | c :: cs, acc => digitsVal cs (acc * 10 + (c.toNat - 48))

def takeDigits : List Char → List Char × List Char
  | [] => ([], [])
  | c :: cs =>
    if c.isDigit then
      let p := takeDigits cs
      (c :: p.1, p.2)
    else ([], c :: cs)

/-- An unsigned JSON integer: `0`, or a nonzero digit followed by digits
(the regex `(?:0|[1-9]\d*)` of the CPython scanner). -/
def parseNumCore : List Char → Except JsonErrKind (Nat × List Char)
  | [] => .error .expectingValue
  | c :: cs =>
    if c = '0' then .ok (0, cs)
    else if c.isDigit then
      let p := takeDigits (c :: cs)
      .ok (digitsVal p.1 0, p.2)
    else .error .expectingValue

/-- Insertion into an association list as Python `dict` assignment `d[k] = v`
behaves: a repeated key keeps its first position and takes the new value. -/
def insertKV : List (String × Json) → String → Json → List (String × Json)
  | [], k, v => [(k, v)]
  | (k', v') :: rest, k, v =>
    if k' = k then (k', v) :: rest else (k', v') :: insertKV rest k v

/-- Build the `dict` a JSON object parse produces from its pair list. -/
def dedupKVs (ps : List (String × Json)) : List (String × Json) :=
  ps.foldl (fun acc p => insertKV acc p.1 p.2) []


mutual
/-- One JSON value, fuel-indexed recursive descent (the fuel only bounds
recursion; `json_loads` supplies more than any input can consume). -/
def parseVal : Nat → List Char → Except JsonErrKind (Json × List Char)
  | 0, _ => .error .depthExceeded
  | fuel + 1, cs =>
    match skipWs cs with
    | [] => .error .expectingValue
    | c :: rest =>
      if c = 'n' then
        if leadsWith ullChars rest then .ok (.null, rest.drop 3) else .error .expectingValue
      else if c = 't' then
        if leadsWith rueChars rest then .ok (.bool true, rest.drop 3) else .error .expectingValue
      else if c = 'f' then
        if leadsWith alseChars rest then .ok (.bool false, rest.drop 4) else .error .expectingValue
      else if c = '"' then
        (parseStrBody rest).map fun p => (Json.str ⟨p.1⟩, p.2)
      else if c = '[' then
        match skipWs rest with
        | [] => .error .expectingValue
        | d :: rest' =>
          if d = ']' then .ok (.arr [], rest')
          else
            match parseVal fuel (d :: rest') with
            | .error e => .error e
            | .ok (v, r) =>
              match parseArrTail fuel r with
              | .error e => .error e
              | .ok (vs, r2) => .ok (.arr (v :: vs), r2)
      else if c = '\x7b' then
        match skipWs rest with
        | [] => .error .expectingPropertyName
        | d :: rest' =>
          if d = '\x7d' then .ok (.obj [], rest')
          else if d = '"' then
            match parseStrBody rest' with
            | .error e => .error e
            | .ok (k, r) =>
              match skipWs r with
              | [] => .error .expectingColonDelim
              | d2 :: r' =>
                if d2 = ':' then
                  match parseVal fuel r' with
                  | .error e => .error e
                  | .ok (v, r2) =>
                    match parseObjTail fuel r2 with
                    | .error e => .error e
                    | .ok (kvs, r3) => .ok (.obj (dedupKVs ((⟨k⟩, v) :: kvs)), r3)
                else .error .expectingColonDelim
          else .error .expectingPropertyName
      else if c = '-' then
        (parseNumCore rest).map fun p => (Json.num (-(p.1 : Int)), p.2)
      else if c.isDigit then
        (parseNumCore (c :: rest)).map fun p => (Json.num (p.1 : Int), p.2)
      else .error .expectingValue

/-- After one array element: `, value ...` repeated until `]`. -/
def parseArrTail : Nat → List Char → Except JsonErrKind (List Json × List Char)
  | 0, _ => .error .depthExceeded
  | fuel + 1, cs =>
    match skipWs cs with
    | [] => .error .expectingCommaDelim
    | d :: rest =>
      if d = ']' then .ok ([], rest)
      else if d = ',' then
        match parseVal fuel rest with
        | .error e => .error e
        | .ok (v, r) =>
          match parseArrTail fuel r with
          | .error e => .error e
          | .ok (vs, r2) => .ok (v :: vs, r2)
      else .error .expectingCommaDelim

/-- After one object member: `, "key": value ...` repeated until the brace
closes. -/
def parseObjTail : Nat → List Char → Except JsonErrKind (List (String × Json) × List Char)
  | 0, _ => .error .depthExceeded
  | fuel + 1, cs =>
    match skipWs cs with
    | [] => .error .expectingCommaDelim
    | d :: rest =>
      if d = '\x7d' then .ok ([], rest)
      else if d = ',' then
        match skipWs rest with
        | [] => .error .expectingPropertyName
        | d2 :: rest' =>
          if d2 = '"' then
            match parseStrBody rest' with
            | .error e => .error e
            | .ok (k, r) =>
              match skipWs r with
              | [] => .error .expectingColonDelim
              | d3 :: r' =>
                if d3 = ':' then
                  match parseVal fuel r' with
                  | .error e => .error e
                  | .ok (v, r2) =>
                    match parseObjTail fuel r2 with
                    | .error e => .error e
                    | .ok (kvs, r3) => .ok ((⟨k⟩, v) :: kvs, r3)
                else .error .expectingColonDelim
          else .error .expectingPropertyName
      else .error .expectingCommaDelim
end

/-- `json.loads`: parse one value, then require only whitespace to remain. -/
def json_loads (s : String) : Except JsonErrKind Json :=
  match parseVal (s.data.length + 1) s.data with
  | .error e => .error e
  | .ok (v, rest) => if skipWs rest = [] then .ok v else .error .extraData

/- ## Well-formedness: what the parser can produce -/

/-- `k` does not occur among the keys of `l`. -/
def keyNotIn (k : String) : List (String × Json) → Bool
  | [] => true
  | (k', _) :: rest => decide (k' ≠ k) && keyNotIn k rest

mutual
/-- Parser-producible values: object keys are pairwise distinct at every
level (Python `dict`s cannot hold a key twice). -/
def wfJson : Json → Bool
  | .null => true
  | .bool _ => true
  | .num _ => true
  | .str _ => true
  | .arr xs => wfList xs
  | .obj kvs => wfFields kvs

def wfList : List Json → Bool
  | [] => true
  | x :: xs => wfJson x && wfList xs

def wfFields : List (String × Json) → Bool
  | [] => true
  | (k, v) :: kvs => keyNotIn k kvs && wfJson v && wfFields kvs
end

/- ## The bot pipeline: requests, responses, handlers -/

/-- The validated outbound request a handler hands to `requests`. -/
structure RequestSpec where
  method : String
  url : String
  body : Option Json

/-- What `requests` returns on a completed HTTP exchange: status code,
reason phrase, headers, and the response body (bytes and decoded text
are identified, as the source only compares the body with empty). -/
structure PyResponse where
  status_code : Nat
  reason : String
  headers : List (String × String)
  body : String

/-- Outcome of the single `requests.<method>` call: a response, or one of
the three exception classes `main.py` distinguishes. -/
inductive ExecOutcome where
  | success (r : PyResponse)
  | timeout
  | reqError (detail : String)
  | unexpected (detail : String)

/-- Observable effects of one handler invocation: every text passed to
`update.message.reply_text`, in order, and the outbound request if the
handler performed one. -/
structure Invocation where
  sends : List String
  call : Option RequestSpec

/-- The body `requests` actually sends for a `json=` argument:
the parsed value re-encoded with `json.dumps`. -/
def sentBody (spec : RequestSpec) : String :=
  match spec.body with
  | some v => json_dumps v
  | none => ""

/-- python-telegram-bot's `context.args`: the whitespace-split tokens of the
message text after the command token itself. -/
def telegram_args (text : String) : List String := (wsTokens text).drop 1

/-- `response.json()` pretty-printed when the body parses as JSON, otherwise
the raw text (`main.py` lines 65-70, 134-138). -/
def fmtJsonOrRaw (body : String) : String :=
  match json_loads body with
  | .ok v => dumpsIndent2 v
  | .error _ => body

/-- `dict(response.headers)` as a JSON value for formatting. -/
def headersJson (hs : List (String × String)) : Json :=
  .obj (hs.map fun p => (p.1, .str p.2))

/-- Body truncation (`main.py` lines 75-76, 142-143, 196-197). -/
def truncBody (s : String) : String :=
  if strLen s > 3500 then strTake s 3500 ++ "\n\n... (response body truncated)" else s

/-- Header truncation (`main.py` lines 77-78, 144-145). -/
def truncHeaders (s : String) : String :=
  if strLen s > 1000 then strTake s 1000 ++ "\n\n... (headers truncated)" else s

def invalidUrlMsg : String := "Invalid URL. Please include http:// or https://"

def getUsageMsg : String := "Please provide a URL.\nUsage: `/get <URL>`"

def deleteUsageMsg : String := "Please provide a URL.\nUsage: `/delete <URL>`"

def ppUsageMsg (method : String) : String :=
  "Please provide a URL.\nUsage: `/" ++ lowerStr method ++ " <URL> <JSON_DATA>`"

def ppInvalidJsonMsg (method : String) (e : JsonErrKind) : String :=
  "Invalid JSON data provided for " ++ method ++ " request.\nError: `" ++ e.message
    ++ "`\nPlease ensure it\x27s a well-formed JSON string."

def ppProgressMsg (method url payload : String) : String :=
  "▶️ Sending " ++ method ++ " request to: " ++ url ++ " with data: `" ++ strTake payload 200
    ++ (if strLen payload > 200 then "..." else "") ++ "`..."

/-- The success reply of `handle_get` (`main.py` lines 81-86). -/
def getSuccessReply (url : String) (r : PyResponse) : String :=
  let response_body_formatted := truncBody (fmtJsonOrRaw r.body)
  let response_headers_formatted := truncHeaders (dumpsIndent2 (headersJson r.headers))
  "✅ *GET Response from " ++ url ++ "*\n\n*Status Code:* `" ++ natStr r.status_code ++ " "
    ++ r.reason ++ "`\n\n*Headers:*\n```json\n" ++ response_headers_formatted
    ++ "\n```\n\n*Body:*\n```json\n" ++ response_body_formatted ++ "\n```"

/-- The success reply of `handle_post_put` (`main.py` lines 147-152); the
headers are formatted exactly as in `handle_get` but the header block of the
message is commented out in the source. -/
def ppSuccessReply (method url : String) (r : PyResponse) : String :=
  let response_body_formatted := truncBody (fmtJsonOrRaw r.body)
  let _response_headers_formatted := truncHeaders (dumpsIndent2 (headersJson r.headers))
  "✅ *" ++ method ++ " Response from " ++ url ++ "*\n\n*Status Code:* `" ++ natStr r.status_code
    ++ " " ++ r.reason ++ "`\n\n*Body:*\n```json\n" ++ response_body_formatted ++ "\n```"

/-- The body block text of the DELETE reply (`main.py` lines 187-197 and the
conditional expression on line 202). -/
def deleteShownBody (body : String) : String :=
  let response_body_formatted :=
    if body ≠ "" then
      match json_loads body with
      | .ok v => dumpsIndent2 v
      | .error _ => body
    else body
  let t := truncBody response_body_formatted
  if t ≠ "" then t else "(No response body)"

/-- The success reply of `handle_delete` (`main.py` lines 199-203). -/
def deleteSuccessReply (url : String) (r : PyResponse) : String :=
  "✅ *DELETE Response from " ++ url ++ "*\n\n*Status Code:* `" ++ natStr r.status_code ++ " "
    ++ r.reason ++ "`\n\n*Body:*\n```\n" ++ deleteShownBody r.body ++ "\n```"

/-- The progress notice `handle_get` sends before calling the network. -/
def getProgressMsg (url : String) : String := "▶️ Sending GET request to: " ++ url ++ "..."

/-- The progress notice `handle_delete` sends before calling the network. -/
def deleteProgressMsg (url : String) : String := "▶️ Sending DELETE request to: " ++ url ++ "..."

/-- The final reply of `handle_get` for each outcome of the network call
(`main.py` lines 81-92). -/
def getReplyFor (url : String) : ExecOutcome → String
  | .success r => getSuccessReply url r
  | .timeout => "❌ *Timeout Error*\n\nThe request to " ++ url ++ " timed out."
  | .reqError e => "❌ *Request Error for " ++ url ++ "*\n\n`" ++ e ++ "`"
  | .unexpected e => "❌ *An unexpected error occurred for " ++ url ++ "*\n\n`" ++ e ++ "`"

/-- The final reply of `handle_post_put` for each outcome of the network call
(`main.py` lines 147-158). -/
def ppReplyFor (method url : String) : ExecOutcome → String
  | .success r => ppSuccessReply method url r
  | .timeout => "❌ *Timeout Error*\n\nThe " ++ method ++ " request to " ++ url ++ " timed out."
  | .reqError e => "❌ *Request Error for " ++ method ++ " to " ++ url ++ "*\n\n`" ++ e ++ "`"
  | .unexpected e =>
      "❌ *An unexpected error occurred for " ++ method ++ " to " ++ url ++ "*\n\n`" ++ e ++ "`"

/-- The final reply of `handle_delete` for each outcome of the network call
(`main.py` lines 199-209). -/
def deleteReplyFor (url : String) : ExecOutcome → String
  | .success r => deleteSuccessReply url r
  | .timeout => "❌ *Timeout Error*\n\nThe DELETE request to " ++ url ++ " timed out."
  | .reqError e => "❌ *Request Error for DELETE to " ++ url ++ "*\n\n`" ++ e ++ "`"
  | .unexpected e => "❌ *An unexpected error occurred for DELETE to " ++ url ++ "*\n\n`" ++ e ++ "`"

/-- `handle_get` (`main.py` lines 46-94), as a function of `context.args` and
the network oracle. -/
def handle_get (args : List String) (exec : RequestSpec → ExecOutcome) : Invocation :=
  match args with
  | [] => ⟨[getUsageMsg], none⟩
  | url :: _ =>
    if schemeOk url then
      let spec : RequestSpec := ⟨"GET", url, none⟩
      ⟨[getProgressMsg url, getReplyFor url (exec spec)], some spec⟩
    else ⟨[invalidUrlMsg], none⟩

/-- `handle_post_put` (`main.py` lines 97-160), as a function of the raw
message text, the `method` string, and the network oracle. -/
def handle_post_put (text method : String) (exec : RequestSpec → ExecOutcome) : Invocation :=
  let parts := pySplit2 text
  if parts.length < 2 then ⟨[ppUsageMsg method], none⟩
  else
    let url := parts.getD 1 ""
    if schemeOk url then
      let json_data_str := if parts.length > 2 then parts.getD 2 "" else "\x7b\x7d"
      match json_loads json_data_str with
      | .error e => ⟨[ppInvalidJsonMsg method e], none⟩
      | .ok v =>
        let progress := ppProgressMsg method url json_data_str
        if method = "POST" ∨ method = "PUT" then
          let spec : RequestSpec := ⟨method, url, some v⟩
          ⟨[progress, ppReplyFor method url (exec spec)], some spec⟩
        else ⟨[progress, "Unsupported method internally."], none⟩
    else ⟨[invalidUrlMsg], none⟩

/-- `handle_delete` (`main.py` lines 169-211), as a function of
`context.args` and the network oracle. -/
def handle_delete (args : List String) (exec : RequestSpec → ExecOutcome) : Invocation :=
  match args with
  | [] => ⟨[deleteUsageMsg], none⟩
  | url :: _ =>
    if schemeOk url then
      let spec : RequestSpec := ⟨"DELETE", url, none⟩
      ⟨[deleteProgressMsg url, deleteReplyFor url (exec spec)], some spec⟩
    else ⟨[invalidUrlMsg], none⟩

/-- The `/get` pipeline from the raw message text (the dispatcher computes
`context.args` from the text). -/
def invoke_get (text : String) (exec : RequestSpec → ExecOutcome) : Invocation :=
  handle_get (telegram_args text) exec

/-- The `/delete` pipeline from the raw message text. -/
def invoke_delete (text : String) (exec : RequestSpec → ExecOutcome) : Invocation :=
  handle_delete (telegram_args text) exec

/-- A network oracle for witnesses: every request times out. -/
def execNone : RequestSpec → ExecOutcome := fun _ => .timeout

/-- A network oracle for witnesses: every request yields `201 Created` with
an empty body and no headers. -/
def execCreated : RequestSpec → ExecOutcome := fun _ => .success ⟨201, "Created", [], ""⟩

/- ## The parser the claims describe (for refinement comparison) -/

def dropWhileWs : List Char → List Char
  | [] => []
  | c :: cs => if isPyWs c then dropWhileWs cs else c :: cs

def takeTokAux : List Char → List Char × List Char
  | [] => ([], [])
  | c :: cs =>
    if isPyWs c then ([], c :: cs)
    else
      let p := takeTokAux cs
      (c :: p.1, p.2)

/-- Splitting "the raw text on whitespace into at most three parts
{command, URL, remainder}" as the spec's words describe it (Python
`text.split(None, 2)`): the remainder keeps the raw text after the second
token's trailing whitespace. -/
def claimSplitPP (s : String) : List String :=
  match dropWhileWs s.data with
  | [] => []
  | c0 :: r0 =>
    let p1 := takeTokAux (c0 :: r0)
    match dropWhileWs p1.2 with
    | [] => [⟨p1.1⟩]
    | c1 :: r1 =>
      let p2 := takeTokAux (c1 :: r1)
      match dropWhileWs p2.2 with
      | [] => [⟨p1.1⟩, ⟨p2.1⟩]
      | c2 :: r2 => [⟨p1.1⟩, ⟨p2.1⟩, ⟨c2 :: r2⟩]

/-- Parse-error kinds named by the spec's Parser contract. -/
inductive ParseErrorK where
  | missingURL
  | invalidURL
deriving DecidableEq

/-- The POST/PUT parser exactly as the claim states it: whitespace split into
at most three parts, remainder as payload text defaulting to `{}`, MissingURL
when fewer than two parts exist, then the scheme check. -/
def parsePPClaim (text : String) : Except ParseErrorK (String × String) :=
  match claimSplitPP text with
  | [] => .error .missingURL
  | [_] => .error .missingURL
  | [_, url] => if schemeOk url then .ok (url, "\x7b\x7d") else .error .invalidURL
  | _ :: url :: rem :: _ => if schemeOk url then .ok (url, rem) else .error .invalidURL

/-- Substring occurrence (by characters). -/
def hasSub (pat : List Char) : List Char → Bool
  | [] => pat.isEmpty
  | c :: cs => leadsWith pat (c :: cs) || hasSub pat cs

/-- A continuation in front of which a serialized number can be re-parsed
without absorbing extra characters: empty, or not starting with a digit. -/
def numSafe : List Char → Prop
  | [] => True
  | c :: _ => c.isDigit = false

/-- All values of an association list satisfy `wfJson`. -/
def valuesWf : List (String × Json) → Bool
  | [] => true
  | (_, v) :: kvs => wfJson v && valuesWf kvs

/- ## Decimal digits round-trip -/

theorem natCharsAux_congr : ∀ n f₁ f₂, n < f₁ → n < f₂ → natCharsAux f₁ n = natCharsAux f₂ n := by
  intro n
  induction n using Nat.strong_induction_on with
  | _ n ih =>
    intro f₁ f₂ h₁ h₂
    match f₁, f₂ with
    | a + 1, b + 1 =>
      simp only [natCharsAux]
      by_cases h : n < 10
      · simp [h]
      · rw [if_neg h, if_neg h, ih (n / 10) (by omega) a b (by omega) (by omega)]

theorem natChars_eq (n : Nat) :
    natChars n = if n < 10 then [Char.ofNat (48 + n)]
      else natChars (n / 10) ++ [Char.ofNat (48 + n % 10)] := by
  have h1 : natChars n = if n < 10 then [Char.ofNat (48 + n)]
      else natCharsAux n (n / 10) ++ [Char.ofNat (48 + n % 10)] := rfl
  rw [h1]
  by_cases h : n < 10
  · simp [h]
  · rw [if_neg h, if_neg h, natCharsAux_congr (n / 10) n (n / 10 + 1) (by omega) (by omega)]
    rfl

theorem digitChar_isDigit : ∀ d, d < 10 → (Char.ofNat (48 + d)).isDigit = true := by decide

theorem digitChar_toNat : ∀ d, d < 10 → (Char.ofNat (48 + d)).toNat = 48 + d := by decide

theorem digitChar_ne_zero : ∀ d, d < 10 → 1 ≤ d → Char.ofNat (48 + d) ≠ '0' := by decide

theorem natChars_digits : ∀ n c, c ∈ natChars n → c.isDigit = true := by
  intro n
  induction n using Nat.strong_induction_on with
  | _ n ih =>
    intro c hc
    rw [natChars_eq] at hc
    by_cases h : n < 10
    · rw [if_pos h] at hc
      simp only [List.mem_singleton] at hc
      subst hc; exact digitChar_isDigit n h
    · rw [if_neg h] at hc
      rcases List.mem_append.1 hc with h1 | h1
      · exact ih (n / 10) (by omega) c h1
      · simp only [List.mem_singleton] at h1
        subst h1; exact digitChar_isDigit (n % 10) (by omega)

theorem natChars_head : ∀ n, ∃ d t, natChars n = d :: t ∧ d.isDigit = true ∧ (1 ≤ n → d ≠ '0') := by
  intro n
  induction n using Nat.strong_induction_on with
  | _ n ih =>
    rw [natChars_eq]
    by_cases h : n < 10
    · refine ⟨Char.ofNat (48 + n), [], by simp [h], digitChar_isDigit n h, fun h1 => ?_⟩
      exact digitChar_ne_zero n h h1
    · obtain ⟨d, t, ht, hd, hz⟩ := ih (n / 10) (by omega)
      refine ⟨d, t ++ [Char.ofNat (48 + n % 10)], by simp [h, ht], hd, fun _ => hz (by omega)⟩

theorem digitsVal_snoc : ∀ l c acc, digitsVal (l ++ [c]) acc = digitsVal l acc * 10 + (c.toNat - 48) := by
  intro l
  induction l with
  | nil => intro c acc; rfl
  | cons c' l ih =>
    intro c acc
    simp only [List.cons_append, digitsVal]
    exact ih c (acc * 10 + (c'.toNat - 48))

theorem digitsVal_natChars : ∀ n acc, digitsVal (natChars n) acc = acc * 10 ^ (natChars n).length + n := by
  intro n
  induction n using Nat.strong_induction_on with
  | _ n ih =>
    intro acc
    rw [natChars_eq]
    by_cases h : n < 10
    · rw [if_pos h]
      simp [digitsVal, digitChar_toNat n h]
    · rw [if_neg h, digitsVal_snoc, ih (n / 10) (by omega) acc, digitChar_toNat (n % 10) (by omega)]
      have hdm := Nat.div_add_mod n 10
      simp only [List.length_append, List.length_cons, List.length_nil, pow_succ]
      ring_nf
      omega

theorem takeDigits_eq : ∀ l rest, (∀ c ∈ l, c.isDigit = true) → numSafe rest →
    takeDigits (l ++ rest) = (l, rest) := by
  intro l
  induction l with
  | nil =>
    intro rest _ hr
    match rest with
    | [] => rfl
    | c :: r => simp only [List.nil_append, takeDigits, numSafe] at hr ⊢; rw [if_neg (by simp [hr])]
  | cons d l ih =>
    intro rest hl hr
    have hd : d.isDigit = true := hl d (by simp)
    simp only [List.cons_append, takeDigits, hd, if_pos, List.append_eq]
    rw [ih rest (fun c hc => hl c (by simp [hc])) hr]

theorem parseNumCore_natChars : ∀ n rest, numSafe rest →
    parseNumCore (natChars n ++ rest) = .ok (n, rest) := by
  intro n rest hr
  by_cases h0 : n = 0
  · subst h0
    have : natChars 0 = ['0'] := by decide
    rw [this]
    simp [parseNumCore]
  · obtain ⟨d, t, ht, hd, hz⟩ := natChars_head n
    rw [ht]
    simp only [List.cons_append, parseNumCore]
    rw [if_neg (hz (by omega)), if_pos hd]
    have hall : ∀ c ∈ d :: t, c.isDigit = true := by rw [← ht]; exact natChars_digits n
    have := takeDigits_eq (d :: t) rest hall hr
    simp only [List.cons_append] at this
    simp only [this]
    have hv := digitsVal_natChars n 0
    rw [ht] at hv
    simp only [hv, Nat.zero_mul, Nat.zero_add]

/- ## String escaping round-trip -/

theorem hexDigitVal : ∀ d, d < 16 →
    hexVal (Char.ofNat (if d < 10 then 48 + d else 87 + d)) = some d := by decide

theorem parseStrBody_esc : ∀ l rest, parseStrBody (escChars l ++ ('"' :: rest)) = .ok (l, rest) := by
  intro l
  induction l with
  | nil => intro rest; simp [escChars, parseStrBody]
  | cons c l ih =>
    intro rest
    simp only [escChars, List.append_assoc]
    by_cases h1 : c = '"'
    · subst h1; simp [escChar, parseStrBody, parseEsc, ih, Except.map]
    by_cases h2 : c = '\\'
    · subst h2; simp [escChar, parseStrBody, parseEsc, ih, Except.map]
    by_cases h3 : c = '\n'
    · subst h3; simp [escChar, parseStrBody, parseEsc, ih, Except.map]
    by_cases h4 : c = '\t'
    · subst h4; simp [escChar, parseStrBody, parseEsc, ih, Except.map]
    by_cases h5 : c = '\r'
    · subst h5; simp [escChar, parseStrBody, parseEsc, ih, Except.map]
    by_cases h6 : c = '\x08'
    · subst h6; simp [escChar, parseStrBody, parseEsc, ih, Except.map]
    by_cases h7 : c = '\x0c'
    · subst h7; simp [escChar, parseStrBody, parseEsc, ih, Except.map]
    by_cases h8 : c.toNat < 32
    · have e1 : hexVal (Char.ofNat (if c.toNat / 16 < 10 then 48 + c.toNat / 16
          else 87 + c.toNat / 16)) = some (c.toNat / 16) := hexDigitVal _ (by omega)
      have e2 : hexVal (Char.ofNat (if c.toNat % 16 < 10 then 48 + c.toNat % 16
          else 87 + c.toNat % 16)) = some (c.toNat % 16) := hexDigitVal _ (by omega)
      simp only [escChar, if_neg h1, if_neg h2, if_neg h3, if_neg h4, if_neg h5, if_neg h6,
        if_neg h7, if_pos h8]
      simp only [List.cons_append, List.nil_append]
      rw [parseStrBody]
      rw [if_neg (by decide), if_pos rfl]
      rw [parseEsc]
      rw [if_neg (by decide), if_neg (by decide), if_neg (by decide), if_neg (by decide),
        if_neg (by decide), if_neg (by decide), if_neg (by decide), if_neg (by decide),
        if_pos rfl]
      rw [show hexVal '0' = some 0 from by decide, e1, e2]
      have harith : ((0 * 16 + 0) * 16 + c.toNat / 16) * 16 + c.toNat % 16 = c.toNat := by omega
      simp only [harith, Char.ofNat_toNat, ih, Except.map]
    · simp only [escChar, if_neg h1, if_neg h2, if_neg h3, if_neg h4, if_neg h5, if_neg h6,
        if_neg h7, if_neg h8]
      simp only [List.cons_append, List.nil_append]
      simp only [parseStrBody, if_neg h1, if_neg h2, if_neg h8]
      simp only [ih, Except.map]

/- ## Whitespace and head-character facts -/

theorem skipWs_not (c : Char) (l : List Char) (h : isWsCh c = false) : skipWs (c :: l) = c :: l := by
  simp [skipWs, h]

theorem skipWs_ws (c : Char) (l : List Char) (h : isWsCh c = true) : skipWs (c :: l) = skipWs l := by
  simp [skipWs, h]

theorem parseVal_ws (fuel : Nat) (c : Char) (l : List Char) (h : isWsCh c = true) :
    parseVal (fuel + 1) (c :: l) = parseVal (fuel + 1) l := by
  conv_lhs => rw [parseVal]
  conv_rhs => rw [parseVal]
  rw [skipWs_ws c l h]

theorem isDigit_facts (c : Char) (h : c.isDigit = true) :
    c ≠ 'n' ∧ c ≠ 't' ∧ c ≠ 'f' ∧ c ≠ '"' ∧ c ≠ '[' ∧ c ≠ '\x7b' ∧ c ≠ '-' ∧ c ≠ ']' ∧
      c ≠ '\x7d' ∧ c ≠ ',' ∧ isWsCh c = false := by
  have hw : isWsCh c = false := by
    cases hw : isWsCh c
    · rfl
    · exfalso
      simp only [isWsCh, Bool.or_eq_true, decide_eq_true_eq] at hw
      rcases hw with ((((rfl | rfl) | rfl) | rfl) | rfl) | rfl <;> exact absurd h (by decide)
  refine ⟨?_, ?_, ?_, ?_, ?_, ?_, ?_, ?_, ?_, ?_, hw⟩ <;>
    (rintro rfl; exact absurd h (by decide))

theorem dumpsChars_head : ∀ v : Json, ∃ c t, dumpsChars v = c :: t ∧ isWsCh c = false ∧ c ≠ ']' := by
  intro v
  match v with
  | .null => exact ⟨'n', ullChars, by simp [dumpsChars], by decide, by decide⟩
  | .bool true => exact ⟨'t', rueChars, by simp [dumpsChars], by decide, by decide⟩
  | .bool false => exact ⟨'f', alseChars, by simp [dumpsChars], by decide, by decide⟩
  | .str s => exact ⟨'"', escChars s.data ++ ['"'], by simp [dumpsChars], by decide, by decide⟩
  | .arr [] => exact ⟨'[', [']'], by simp [dumpsChars], by decide, by decide⟩
  | .arr (x :: xs) =>
    exact ⟨'[', dumpsChars x ++ (dumpsArrTail xs ++ [']']), by simp [dumpsChars], by decide, by decide⟩
  | .obj [] => exact ⟨'\x7b', ['\x7d'], by simp [dumpsChars], by decide, by decide⟩
  | .obj ((k, v) :: kvs) =>
    exact ⟨'\x7b', '"' :: (escChars k.data ++ '"' :: ':' :: ' ' :: (dumpsChars v ++ (dumpsObjTail kvs ++ ['\x7d']))),
      by simp [dumpsChars], by decide, by decide⟩
  | .num n =>
    by_cases hn : n < 0
    · exact ⟨'-', natChars n.natAbs, by simp [dumpsChars, intChars, hn], by decide, by decide⟩
    · obtain ⟨d, t, ht, hd, _⟩ := natChars_head n.natAbs
      obtain ⟨_, _, _, _, _, _, _, hne, _, _, hwf⟩ := isDigit_facts d hd
      exact ⟨d, t, by simp [dumpsChars, intChars, hn, ht], hwf, hne⟩

theorem numSafe_arr (xs : List Json) (rest : List Char) :
    numSafe (dumpsArrTail xs ++ (']' :: rest)) := by
  match xs with
  | [] => simp [dumpsArrTail, numSafe]
  | x :: xs => simp [dumpsArrTail, numSafe]

theorem numSafe_obj (kvs : List (String × Json)) (rest : List Char) :
    numSafe (dumpsObjTail kvs ++ ('\x7d' :: rest)) := by
  match kvs with
  | [] => simp [dumpsObjTail, numSafe]
  | (k, v) :: kvs => simp [dumpsObjTail, numSafe]

/- ## Deduplication and well-formedness lemmas -/

theorem keyNotIn_append (k : String) (a b : List (String × Json)) :
    keyNotIn k (a ++ b) = (keyNotIn k a && keyNotIn k b) := by
  induction a with
  | nil => simp [keyNotIn]
  | cons p a ih => cases p; simp [keyNotIn, ih, Bool.and_assoc]

theorem keyNotIn_mem (k : String) (l : List (String × Json)) (h : keyNotIn k l = true)
    (p : String × Json) (hp : p ∈ l) : p.1 ≠ k := by
  induction l with
  | nil => cases hp
  | cons q l ih =>
    cases q with
    | mk k' v' =>
      simp only [keyNotIn, Bool.and_eq_true, decide_eq_true_eq] at h
      rcases List.mem_cons.1 hp with rfl | hp'
      · exact h.1
      · exact ih h.2 hp'

theorem insertKV_notIn (l : List (String × Json)) (k : String) (v : Json)
    (h : keyNotIn k l = true) : insertKV l k v = l ++ [(k, v)] := by
  induction l with
  | nil => rfl
  | cons p l ih =>
    cases p with
    | mk k' v' =>
      simp only [keyNotIn, Bool.and_eq_true, decide_eq_true_eq] at h
      simp only [insertKV, if_neg (fun hh => h.1 hh), List.cons_append]
      rw [ih h.2]

theorem foldl_insert (l : List (String × Json)) : ∀ acc,
    (∀ p ∈ l, keyNotIn p.1 acc = true) → wfFields l = true →
    l.foldl (fun acc p => insertKV acc p.1 p.2) acc = acc ++ l := by
  induction l with
  | nil => intro acc _ _; simp
  | cons p l ih =>
    intro acc hacc hwf
    cases p with
    | mk k v =>
      simp only [wfFields, Bool.and_eq_true] at hwf
      simp only [List.foldl_cons]
      rw [insertKV_notIn acc k v (hacc (k, v) (by simp))]
      rw [ih (acc ++ [(k, v)]) ?_ hwf.2]
      · simp
      · intro p hp
        rw [keyNotIn_append, Bool.and_eq_true]
        refine ⟨hacc p (by simp [hp]), ?_⟩
        have hk : k ≠ p.1 := by
          intro he
          exact keyNotIn_mem k l hwf.1.1 p hp he.symm
        simp only [keyNotIn, Bool.and_true, decide_eq_true_eq]
        exact hk

theorem dedupKVs_eq_self (l : List (String × Json)) (h : wfFields l = true) : dedupKVs l = l := by
  have := foldl_insert l [] (fun p _ => rfl) h
  simpa [dedupKVs] using this

theorem keyNotIn_insertKV (l : List (String × Json)) (k' k : String) (v : Json)
    (h1 : keyNotIn k' l = true) (h2 : k' ≠ k) : keyNotIn k' (insertKV l k v) = true := by
  induction l with
  | nil =>
    simp only [insertKV, keyNotIn, Bool.and_true]
    simpa using fun hh => h2 hh.symm
  | cons p l ih =>
    cases p with
    | mk ka va =>
      simp only [keyNotIn, Bool.and_eq_true, decide_eq_true_eq] at h1
      by_cases he : ka = k
      · subst he; simp [insertKV, keyNotIn, h1.1, h1.2]
      · simp only [insertKV, if_neg he, keyNotIn, Bool.and_eq_true, decide_eq_true_eq]
        exact ⟨h1.1, ih h1.2⟩

theorem insertKV_wf (l : List (String × Json)) (k : String) (v : Json)
    (hl : wfFields l = true) (hv : wfJson v = true) : wfFields (insertKV l k v) = true := by
  induction l with
  | nil => simp [insertKV, wfFields, keyNotIn, hv]
  | cons p l ih =>
    obtain ⟨ka, va⟩ := p
    simp only [wfFields, Bool.and_eq_true] at hl
    by_cases he : ka = k
    · subst he
      simp only [insertKV, if_pos rfl, wfFields, Bool.and_eq_true]
      exact ⟨⟨hl.1.1, hv⟩, hl.2⟩
    · simp only [insertKV, if_neg he, wfFields, Bool.and_eq_true]
      exact ⟨⟨keyNotIn_insertKV l ka k v hl.1.1 he, hl.1.2⟩, ih hl.2⟩

theorem foldl_insert_wf (l : List (String × Json)) : ∀ acc,
    wfFields acc = true → valuesWf l = true →
    wfFields (l.foldl (fun acc p => insertKV acc p.1 p.2) acc) = true := by
  induction l with
  | nil => intro acc ha _; simpa using ha
  | cons p l ih =>
    intro acc ha hv
    obtain ⟨k, v⟩ := p
    simp only [valuesWf, Bool.and_eq_true] at hv
    simp only [List.foldl_cons]
    exact ih (insertKV acc k v) (insertKV_wf acc k v ha hv.1) hv.2

theorem dedupKVs_wf (l : List (String × Json)) (h : valuesWf l = true) :
    wfFields (dedupKVs l) = true :=
  foldl_insert_wf l [] rfl h

/- ## One-step unfolding lemmas for the parser -/

theorem parseVal_cons (f : Nat) (c : Char) (l : List Char) (h : isWsCh c = false) :
    parseVal (f + 1) (c :: l) =
      (if c = 'n' then
        if leadsWith ullChars l then .ok (.null, l.drop 3) else .error .expectingValue
      else if c = 't' then
        if leadsWith rueChars l then .ok (.bool true, l.drop 3) else .error .expectingValue
      else if c = 'f' then
        if leadsWith alseChars l then .ok (.bool false, l.drop 4) else .error .expectingValue
      else if c = '"' then
        (parseStrBody l).map fun p => (Json.str ⟨p.1⟩, p.2)
      else if c = '[' then
        match skipWs l with
        | [] => .error .expectingValue
        | d :: rest' =>
          if d = ']' then .ok (.arr [], rest')
          else
            match parseVal f (d :: rest') with
            | .error e => .error e
            | .ok (v, r) =>
              match parseArrTail f r with
              | .error e => .error e
              | .ok (vs, r2) => .ok (.arr (v :: vs), r2)
      else if c = '\x7b' then
        match skipWs l with
        | [] => .error .expectingPropertyName
        | d :: rest' =>
          if d = '\x7d' then .ok (.obj [], rest')
          else if d = '"' then
            match parseStrBody rest' with
            | .error e => .error e
            | .ok (k, r) =>
              match skipWs r with
              | [] => .error .expectingColonDelim
              | d2 :: r' =>
                if d2 = ':' then
                  match parseVal f r' with
                  | .error e => .error e
                  | .ok (v, r2) =>
                    match parseObjTail f r2 with
                    | .error e => .error e
                    | .ok (kvs, r3) => .ok (.obj (dedupKVs ((⟨k⟩, v) :: kvs)), r3)
                else .error .expectingColonDelim
          else .error .expectingPropertyName
      else if c = '-' then
        (parseNumCore l).map fun p => (Json.num (-(p.1 : Int)), p.2)
      else if c.isDigit then
        (parseNumCore (c :: l)).map fun p => (Json.num (p.1 : Int), p.2)
      else .error .expectingValue) := by
  conv_lhs => rw [parseVal, skipWs_not c l h]

theorem parseArrTail_cons (f : Nat) (c : Char) (l : List Char) (h : isWsCh c = false) :
    parseArrTail (f + 1) (c :: l) =
      (if c = ']' then .ok ([], l)
      else if c = ',' then
        match parseVal f l with
        | .error e => .error e
        | .ok (v, r) =>
          match parseArrTail f r with
          | .error e => .error e
          | .ok (vs, r2) => .ok (v :: vs, r2)
      else .error .expectingCommaDelim) := by
  conv_lhs => rw [parseArrTail, skipWs_not c l h]

theorem parseObjTail_cons (f : Nat) (c : Char) (l : List Char) (h : isWsCh c = false) :
    parseObjTail (f + 1) (c :: l) =
      (if c = '\x7d' then .ok ([], l)
      else if c = ',' then
        match skipWs l with
        | [] => .error .expectingPropertyName
        | d2 :: rest' =>
          if d2 = '"' then
            match parseStrBody rest' with
            | .error e => .error e
            | .ok (k, r) =>
              match skipWs r with
              | [] => .error .expectingColonDelim
              | d3 :: r' =>
                if d3 = ':' then
                  match parseVal f r' with
                  | .error e => .error e
                  | .ok (v, r2) =>
                    match parseObjTail f r2 with
                    | .error e => .error e
                    | .ok (kvs, r3) => .ok ((⟨k⟩, v) :: kvs, r3)
                else .error .expectingColonDelim
          else .error .expectingPropertyName
      else .error .expectingCommaDelim) := by
  conv_lhs => rw [parseObjTail, skipWs_not c l h]

/- ## The serializer-parser round-trip -/

theorem roundtrip_all : ∀ n : Nat,
    (∀ v : Json, sizeOf v ≤ n → ∀ fuel rest, (dumpsChars v).length < fuel → numSafe rest →
      wfJson v = true → parseVal fuel (dumpsChars v ++ rest) = .ok (v, rest)) ∧
    (∀ xs : List Json, sizeOf xs ≤ n → ∀ fuel rest, (dumpsArrTail xs).length + 1 < fuel →
      wfList xs = true → parseArrTail fuel (dumpsArrTail xs ++ (']' :: rest)) = .ok (xs, rest)) ∧
    (∀ kvs : List (String × Json), sizeOf kvs ≤ n → ∀ fuel rest,
      (dumpsObjTail kvs).length + 1 < fuel → wfFields kvs = true →
      parseObjTail fuel (dumpsObjTail kvs ++ ('\x7d' :: rest)) = .ok (kvs, rest)) := by
  intro n
  induction n using Nat.strong_induction_on with
  | _ n ih =>
    refine ⟨?_, ?_, ?_⟩
    · intro v hv fuel rest hfuel hsafe hwf
      obtain ⟨f, rfl⟩ : ∃ f, fuel = f + 1 := ⟨fuel - 1, by omega⟩
      cases v with
      | null =>
        rw [show dumpsChars Json.null = 'n' :: ullChars from by simp [dumpsChars]]
        rw [show ('n' :: ullChars) = ['n', 'u', 'l', 'l'] from rfl]
        simp only [List.cons_append, List.nil_append]
        rw [parseVal_cons f 'n' _ (by decide), if_pos rfl,
          if_pos (by simp +decide [leadsWith, ullChars])]
        simp
      | bool b =>
        cases b with
        | true =>
          rw [show dumpsChars (Json.bool true) = 't' :: rueChars from by simp [dumpsChars]]
          rw [show ('t' :: rueChars) = ['t', 'r', 'u', 'e'] from rfl]
          simp only [List.cons_append, List.nil_append]
          rw [parseVal_cons f 't' _ (by decide), if_neg (by decide), if_pos rfl,
            if_pos (by simp +decide [leadsWith, rueChars])]
          simp
        | false =>
          rw [show dumpsChars (Json.bool false) = 'f' :: alseChars from by simp [dumpsChars]]
          rw [show ('f' :: alseChars) = ['f', 'a', 'l', 's', 'e'] from rfl]
          simp only [List.cons_append, List.nil_append]
          rw [parseVal_cons f 'f' _ (by decide), if_neg (by decide), if_neg (by decide),
            if_pos rfl, if_pos (by simp +decide [leadsWith, alseChars])]
          simp
      | num m =>
        rw [show dumpsChars (Json.num m) = intChars m from by simp [dumpsChars]] at hfuel ⊢
        by_cases hm : m < 0
        · rw [show intChars m = '-' :: natChars m.natAbs from by simp [intChars, hm]]
          simp only [List.cons_append]
          rw [parseVal_cons f '-' _ (by decide),
            if_neg (by decide), if_neg (by decide), if_neg (by decide), if_neg (by decide),
            if_neg (by decide), if_neg (by decide), if_pos rfl,
            parseNumCore_natChars m.natAbs rest hsafe]
          simp only [Except.map]
          rw [show (-(m.natAbs : Int)) = m from by omega]
        · rw [show intChars m = natChars m.natAbs from by simp [intChars, hm]]
          obtain ⟨d, t, ht, hdig, _⟩ := natChars_head m.natAbs
          obtain ⟨h1, h2, h3, h4, h5, h6, h7, _, _, _, hw⟩ := isDigit_facts d hdig
          rw [ht]
          simp only [List.cons_append]
          rw [parseVal_cons f d _ hw,
            if_neg h1, if_neg h2, if_neg h3, if_neg h4, if_neg h5, if_neg h6, if_neg h7,
            if_pos hdig,
            show d :: (t ++ rest) = (d :: t) ++ rest from rfl, ← ht,
            parseNumCore_natChars m.natAbs rest hsafe]
          simp only [Except.map]
          rw [show ((m.natAbs : Int)) = m from by omega]
      | str sv =>
        rw [show dumpsChars (Json.str sv) = '"' :: (escChars sv.data ++ ['"']) from by
          simp [dumpsChars]]
        simp only [List.cons_append, List.append_assoc, List.singleton_append, List.nil_append]
        rw [parseVal_cons f '"' _ (by decide),
          if_neg (by decide), if_neg (by decide), if_neg (by decide), if_pos rfl,
          parseStrBody_esc sv.data rest]
        simp only [Except.map]
      | arr xs =>
        cases xs with
        | nil =>
          rw [show dumpsChars (Json.arr []) = ['[', ']'] from by simp [dumpsChars]]
          simp only [List.cons_append, List.nil_append]
          rw [parseVal_cons f '[' _ (by decide),
            if_neg (by decide), if_neg (by decide), if_neg (by decide), if_neg (by decide),
            if_pos rfl, skipWs_not ']' rest (by decide)]
          dsimp only
          rw [if_pos rfl]
        | cons x xs =>
          have hdx : dumpsChars (Json.arr (x :: xs)) =
              '[' :: (dumpsChars x ++ dumpsArrTail xs ++ [']']) := by simp [dumpsChars]
          rw [hdx] at hfuel ⊢
          simp only [List.length_cons, List.length_append, List.length_singleton] at hfuel
          simp only [List.cons_append, List.append_assoc, List.singleton_append, List.nil_append]
          rw [parseVal_cons f '[' _ (by decide),
            if_neg (by decide), if_neg (by decide), if_neg (by decide), if_neg (by decide),
            if_pos rfl]
          obtain ⟨cx, tx, hx, hxw, hxne⟩ := dumpsChars_head x
          rw [hx]
          simp only [List.cons_append]
          rw [skipWs_not cx _ hxw]
          dsimp only
          rw [if_neg hxne,
            show cx :: (tx ++ (dumpsArrTail xs ++ (']' :: rest)))
              = dumpsChars x ++ (dumpsArrTail xs ++ (']' :: rest)) from by rw [hx]; rfl]
          simp only [Json.arr.sizeOf_spec, List.cons.sizeOf_spec] at hv
          simp only [wfJson, wfList, Bool.and_eq_true] at hwf
          have hP := (ih (n - 1) (by omega)).1
          have hQ := (ih (n - 1) (by omega)).2.1
          rw [hP x (by omega) f (dumpsArrTail xs ++ (']' :: rest)) (by omega)
            (numSafe_arr xs rest) hwf.1]
          dsimp only
          rw [hQ xs (by omega) f rest (by omega) hwf.2]
      | obj kvs =>
        cases kvs with
        | nil =>
          rw [show dumpsChars (Json.obj []) = ['\x7b', '\x7d'] from by simp [dumpsChars]]
          simp only [List.cons_append, List.nil_append]
          rw [parseVal_cons f '\x7b' _ (by decide),
            if_neg (by decide), if_neg (by decide), if_neg (by decide), if_neg (by decide),
            if_neg (by decide), if_pos rfl, skipWs_not '\x7d' rest (by decide)]
          dsimp only
          rw [if_pos rfl]
        | cons kv kvs =>
          obtain ⟨k, v⟩ := kv
          have hdo : dumpsChars (Json.obj ((k, v) :: kvs)) =
              '\x7b' :: ('"' :: (escChars k.data ++ ['"', ':', ' ']) ++ dumpsChars v
                ++ dumpsObjTail kvs ++ ['\x7d']) := by simp [dumpsChars]
          rw [hdo] at hfuel ⊢
          simp only [List.length_cons, List.length_append, List.length_singleton] at hfuel
          simp only [List.cons_append, List.append_assoc, List.singleton_append, List.nil_append]
          rw [parseVal_cons f '\x7b' _ (by decide),
            if_neg (by decide), if_neg (by decide), if_neg (by decide), if_neg (by decide),
            if_neg (by decide), if_pos rfl, skipWs_not '"' _ (by decide)]
          dsimp only
          rw [if_neg (by decide), if_pos rfl,
            parseStrBody_esc k.data
              (':' :: ' ' :: (dumpsChars v ++ (dumpsObjTail kvs ++ ('\x7d' :: rest))))]
          dsimp only
          rw [skipWs_not ':' _ (by decide)]
          dsimp only
          rw [if_pos rfl]
          obtain ⟨f', rfl⟩ : ∃ f', f = f' + 1 := ⟨f - 1, by omega⟩
          rw [parseVal_ws f' ' ' _ (by decide)]
          simp only [Json.obj.sizeOf_spec, List.cons.sizeOf_spec, Prod.mk.sizeOf_spec] at hv
          simp only [wfJson, wfFields, Bool.and_eq_true] at hwf
          have hP := (ih (n - 1) (by omega)).1
          have hR := (ih (n - 1) (by omega)).2.2
          rw [hP v (by omega) (f' + 1) (dumpsObjTail kvs ++ ('\x7d' :: rest)) (by omega)
            (numSafe_obj kvs rest) hwf.1.2]
          dsimp only
          rw [hR kvs (by omega) (f' + 1) rest (by omega) hwf.2]
          dsimp only
          rw [show (⟨k.data⟩ : String) = k from by cases k; rfl,
            dedupKVs_eq_self ((k, v) :: kvs) (by
              simp only [wfFields, Bool.and_eq_true]
              exact ⟨⟨hwf.1.1, hwf.1.2⟩, hwf.2⟩)]
    · intro xs hxs fuel rest hfuel hwfl
      obtain ⟨f, rfl⟩ : ∃ f, fuel = f + 1 := ⟨fuel - 1, by omega⟩
      cases xs with
      | nil =>
        rw [show dumpsArrTail ([] : List Json) = [] from by simp [dumpsArrTail]]
        simp only [List.nil_append]
        rw [parseArrTail_cons f ']' rest (by decide), if_pos rfl]
      | cons y ys =>
        have hdy : dumpsArrTail (y :: ys) = ',' :: ' ' :: (dumpsChars y ++ dumpsArrTail ys) := by
          simp [dumpsArrTail]
        rw [hdy] at hfuel ⊢
        simp only [List.length_cons, List.length_append] at hfuel
        simp only [List.cons_append, List.append_assoc, List.nil_append]
        rw [parseArrTail_cons f ',' _ (by decide), if_neg (by decide), if_pos rfl]
        obtain ⟨f', rfl⟩ : ∃ f', f = f' + 1 := ⟨f - 1, by omega⟩
        rw [parseVal_ws f' ' ' _ (by decide)]
        simp only [List.cons.sizeOf_spec] at hxs
        simp only [wfList, Bool.and_eq_true] at hwfl
        have hP := (ih (n - 1) (by omega)).1
        have hQ := (ih (n - 1) (by omega)).2.1
        rw [hP y (by omega) (f' + 1) (dumpsArrTail ys ++ (']' :: rest)) (by omega)
          (numSafe_arr ys rest) hwfl.1]
        dsimp only
        rw [hQ ys (by omega) (f' + 1) rest (by omega) hwfl.2]
    · intro kvs hk fuel rest hfuel hwff
      obtain ⟨f, rfl⟩ : ∃ f, fuel = f + 1 := ⟨fuel - 1, by omega⟩
      cases kvs with
      | nil =>
        rw [show dumpsObjTail ([] : List (String × Json)) = [] from by simp [dumpsObjTail]]
        simp only [List.nil_append]
        rw [parseObjTail_cons f '\x7d' rest (by decide), if_pos rfl]
      | cons kv kvs =>
        obtain ⟨k, v⟩ := kv
        have hdo : dumpsObjTail ((k, v) :: kvs) =
            ',' :: ' ' :: ('"' :: (escChars k.data ++ ['"', ':', ' ']) ++ dumpsChars v
              ++ dumpsObjTail kvs) := by simp [dumpsObjTail]
        rw [hdo] at hfuel ⊢
        simp only [List.length_cons, List.length_append, List.length_singleton] at hfuel
        simp only [List.cons_append, List.append_assoc, List.singleton_append, List.nil_append]
        rw [parseObjTail_cons f ',' _ (by decide), if_neg (by decide), if_pos rfl,
          skipWs_ws ' ' _ (by decide), skipWs_not '"' _ (by decide)]
        dsimp only
        rw [if_pos rfl,
          parseStrBody_esc k.data
            (':' :: ' ' :: (dumpsChars v ++ (dumpsObjTail kvs ++ ('\x7d' :: rest))))]
        dsimp only
        rw [skipWs_not ':' _ (by decide)]
        dsimp only
        rw [if_pos rfl]
        obtain ⟨f', rfl⟩ : ∃ f', f = f' + 1 := ⟨f - 1, by omega⟩
        rw [parseVal_ws f' ' ' _ (by decide)]
        simp only [List.cons.sizeOf_spec, Prod.mk.sizeOf_spec] at hk
        simp only [wfFields, Bool.and_eq_true] at hwff
        have hP := (ih (n - 1) (by omega)).1
        have hR := (ih (n - 1) (by omega)).2.2
        rw [hP v (by omega) (f' + 1) (dumpsObjTail kvs ++ ('\x7d' :: rest)) (by omega)
          (numSafe_obj kvs rest) hwff.1.2]
        dsimp only
        rw [hR kvs (by omega) (f' + 1) rest (by omega) hwff.2]

/- ## Parser outputs are well-formed -/

theorem parse_wf : ∀ fuel : Nat,
    (∀ cs p, parseVal fuel cs = .ok p → wfJson p.1 = true) ∧
    (∀ cs p, parseArrTail fuel cs = .ok p → wfList p.1 = true) ∧
    (∀ cs p, parseObjTail fuel cs = .ok p → valuesWf p.1 = true) := by
  intro fuel
  induction fuel with
  | zero =>
    refine ⟨?_, ?_, ?_⟩ <;> intro cs p h
    · rw [parseVal] at h; simp at h
    · rw [parseArrTail] at h; simp at h
    · rw [parseObjTail] at h; simp at h
  | succ f ihs =>
    obtain ⟨ihV, ihA, ihO⟩ := ihs
    refine ⟨?_, ?_, ?_⟩
    · intro cs p h
      rw [parseVal] at h
      split at h
      · simp at h
      rename_i c l hsk
      split_ifs at h with h1 h1b h2 h2b h3 h3b h4 h5 h6 h7 h8
      · simp only [Except.ok.injEq] at h; subst h; simp [wfJson]
      · simp only [Except.ok.injEq] at h; subst h; simp [wfJson]
      · simp only [Except.ok.injEq] at h; subst h; simp [wfJson]
      · -- string
        rcases hps : parseStrBody l with e | q
        · rw [hps] at h; simp [Except.map] at h
        · rw [hps] at h
          simp only [Except.map, Except.ok.injEq] at h
          subst h
          simp [wfJson]
      · -- array
        split at h
        · simp at h
        · rename_i d l2 hsk2
          by_cases hd : d = ']'
          · rw [if_pos hd] at h
            simp only [Except.ok.injEq] at h; subst h; simp [wfJson, wfList]
          · rw [if_neg hd] at h
            split at h
            · simp at h
            · rename_i v1 r1 hp1
              split at h
              · simp at h
              · rename_i vs r2 ha2
                simp only [Except.ok.injEq] at h
                subst h
                simp only [wfJson, wfList, Bool.and_eq_true]
                exact ⟨ihV _ _ hp1, ihA _ _ ha2⟩
      · -- object
        split at h
        · simp at h
        · rename_i d l2 hsk2
          by_cases hd : d = '\x7d'
          · rw [if_pos hd] at h
            simp only [Except.ok.injEq] at h; subst h; simp [wfJson, wfFields]
          · rw [if_neg hd] at h
            by_cases hdq : d = '"'
            · rw [if_pos hdq] at h
              split at h
              · simp at h
              · rename_i kl r1 hk
                split at h
                · simp at h
                · rename_i d2 l3 hsk3
                  by_cases hcol : d2 = ':'
                  · rw [if_pos hcol] at h
                    split at h
                    · simp at h
                    · rename_i v1 r2 hp1
                      split at h
                      · simp at h
                      · rename_i kvs r3 ho2
                        simp only [Except.ok.injEq] at h
                        subst h
                        simp only [wfJson]
                        refine dedupKVs_wf _ ?_
                        simp only [valuesWf, Bool.and_eq_true]
                        exact ⟨ihV _ _ hp1, ihO _ _ ho2⟩
                  · rw [if_neg hcol] at h; simp at h
            · rw [if_neg hdq] at h; simp at h
      · -- negative number
        rcases hn : parseNumCore l with e | q
        · rw [hn] at h; simp [Except.map] at h
        · rw [hn] at h
          simp only [Except.map, Except.ok.injEq] at h
          subst h
          simp [wfJson]
      · -- nonnegative number
        rcases hn : parseNumCore (c :: l) with e | q
        · rw [hn] at h; simp [Except.map] at h
        · rw [hn] at h
          simp only [Except.map, Except.ok.injEq] at h
          subst h
          simp [wfJson]
    · intro cs p h
      rw [parseArrTail] at h
      split at h
      · simp at h
      · rename_i d l hska
        by_cases hd : d = ']'
        · rw [if_pos hd] at h
          simp only [Except.ok.injEq] at h; subst h; simp [wfList]
        · rw [if_neg hd] at h
          by_cases hc : d = ','
          · rw [if_pos hc] at h
            split at h
            · simp at h
            · rename_i v1 r1 hp1
              split at h
              · simp at h
              · rename_i vs r2 ha2
                simp only [Except.ok.injEq] at h
                subst h
                simp only [wfList, Bool.and_eq_true]
                exact ⟨ihV _ _ hp1, ihA _ _ ha2⟩
          · rw [if_neg hc] at h; simp at h
    · intro cs p h
      rw [parseObjTail] at h
      split at h
      · simp at h
      · rename_i d l hska
        by_cases hd : d = '\x7d'
        · rw [if_pos hd] at h
          simp only [Except.ok.injEq] at h; subst h; simp [valuesWf]
        · rw [if_neg hd] at h
          by_cases hc : d = ','
          · rw [if_pos hc] at h
            split at h
            · simp at h
            · rename_i d2 l2 hskb
              by_cases hdq : d2 = '"'
              · rw [if_pos hdq] at h
                split at h
                · simp at h
                · rename_i kl r1 hk
                  split at h
                  · simp at h
                  · rename_i d3 l3 hskc
                    by_cases hcol : d3 = ':'
                    · rw [if_pos hcol] at h
                      split at h
                      · simp at h
                      · rename_i v1 r2 hp1
                        split at h
                        · simp at h
                        · rename_i kvs r3 ho2
                          simp only [Except.ok.injEq] at h
                          subst h
                          simp only [valuesWf, Bool.and_eq_true]
                          exact ⟨ihV _ _ hp1, ihO _ _ ho2⟩
                    · rw [if_neg hcol] at h; simp at h
              · rw [if_neg hdq] at h; simp at h
          · rw [if_neg hc] at h; simp at h

/- ## json_loads corollaries -/

theorem json_loads_wf (t : String) (v : Json) (h : json_loads t = .ok v) : wfJson v = true := by
  rw [json_loads] at h
  split at h
  · simp at h
  · rename_i v1 r1 hp
    split_ifs at h with hr
    · simp only [Except.ok.injEq] at h
      subst h
      exact (parse_wf (t.data.length + 1)).1 t.data _ hp

theorem json_loads_dumps (v : Json) (h : wfJson v = true) : json_loads (json_dumps v) = .ok v := by
  rw [json_loads]
  have hdata : (json_dumps v).data = dumpsChars v := rfl
  rw [hdata]
  have hrt := (roundtrip_all (sizeOf v)).1 v le_rfl ((dumpsChars v).length + 1) []
    (by omega) (by simp [numSafe]) h
  rw [List.append_nil] at hrt
  rw [hrt]
  rfl

/- ## Handler path lemmas -/

theorem get_missing (exec : RequestSpec → ExecOutcome) :
    handle_get [] exec = ⟨[getUsageMsg], none⟩ := rfl

theorem get_invalid (url : String) (rest : List String) (exec : RequestSpec → ExecOutcome)
    (h : schemeOk url = false) : handle_get (url :: rest) exec = ⟨[invalidUrlMsg], none⟩ := by
  simp [handle_get, h]

theorem get_ok (url : String) (rest : List String) (exec : RequestSpec → ExecOutcome)
    (h : schemeOk url = true) :
    handle_get (url :: rest) exec =
      ⟨[getProgressMsg url, getReplyFor url (exec ⟨"GET", url, none⟩)], some ⟨"GET", url, none⟩⟩ := by
  simp [handle_get, h]

theorem delete_missing (exec : RequestSpec → ExecOutcome) :
    handle_delete [] exec = ⟨[deleteUsageMsg], none⟩ := rfl

theorem delete_invalid (url : String) (rest : List String) (exec : RequestSpec → ExecOutcome)
    (h : schemeOk url = false) : handle_delete (url :: rest) exec = ⟨[invalidUrlMsg], none⟩ := by
  simp [handle_delete, h]

theorem delete_ok (url : String) (rest : List String) (exec : RequestSpec → ExecOutcome)
    (h : schemeOk url = true) :
    handle_delete (url :: rest) exec =
      ⟨[deleteProgressMsg url, deleteReplyFor url (exec ⟨"DELETE", url, none⟩)],
        some ⟨"DELETE", url, none⟩⟩ := by
  simp [handle_delete, h]

theorem pp_missing (text method : String) (exec : RequestSpec → ExecOutcome)
    (h : (pySplit2 text).length < 2) :
    handle_post_put text method exec = ⟨[ppUsageMsg method], none⟩ := by
  simp only [handle_post_put]
  rw [if_pos h]

theorem pp_invalid_url (text method : String) (exec : RequestSpec → ExecOutcome)
    (h1 : ¬ (pySplit2 text).length < 2) (h2 : schemeOk ((pySplit2 text).getD 1 "") = false) :
    handle_post_put text method exec = ⟨[invalidUrlMsg], none⟩ := by
  simp only [handle_post_put]
  rw [if_neg h1, if_neg (by rw [h2]; simp)]

theorem pp_invalid_json (text method : String) (exec : RequestSpec → ExecOutcome) (e : JsonErrKind)
    (h1 : ¬ (pySplit2 text).length < 2) (h2 : schemeOk ((pySplit2 text).getD 1 "") = true)
    (h3 : json_loads (if (pySplit2 text).length > 2 then (pySplit2 text).getD 2 ""
      else "\x7b\x7d") = .error e) :
    handle_post_put text method exec = ⟨[ppInvalidJsonMsg method e], none⟩ := by
  simp only [handle_post_put]
  rw [if_neg h1, if_pos h2, h3]

theorem pp_ok (text method : String) (exec : RequestSpec → ExecOutcome) (v : Json)
    (h1 : ¬ (pySplit2 text).length < 2) (h2 : schemeOk ((pySplit2 text).getD 1 "") = true)
    (h3 : json_loads (if (pySplit2 text).length > 2 then (pySplit2 text).getD 2 ""
      else "\x7b\x7d") = .ok v)
    (h4 : method = "POST" ∨ method = "PUT") :
    handle_post_put text method exec =
      ⟨[ppProgressMsg method ((pySplit2 text).getD 1 "")
          (if (pySplit2 text).length > 2 then (pySplit2 text).getD 2 "" else "\x7b\x7d"),
        ppReplyFor method ((pySplit2 text).getD 1 "")
          (exec ⟨method, (pySplit2 text).getD 1 "", some v⟩)],
       some ⟨method, (pySplit2 text).getD 1 "", some v⟩⟩ := by
  simp only [handle_post_put]
  rw [if_neg h1, if_pos h2, h3]
  dsimp only
  rw [if_pos h4]

theorem pp_unsupported (text method : String) (exec : RequestSpec → ExecOutcome) (v : Json)
    (h1 : ¬ (pySplit2 text).length < 2) (h2 : schemeOk ((pySplit2 text).getD 1 "") = true)
    (h3 : json_loads (if (pySplit2 text).length > 2 then (pySplit2 text).getD 2 ""
      else "\x7b\x7d") = .ok v)
    (h4 : ¬ (method = "POST" ∨ method = "PUT")) :
    handle_post_put text method exec =
      ⟨[ppProgressMsg method ((pySplit2 text).getD 1 "")
          (if (pySplit2 text).length > 2 then (pySplit2 text).getD 2 "" else "\x7b\x7d"),
        "Unsupported method internally."], none⟩ := by
  simp only [handle_post_put]
  rw [if_neg h1, if_pos h2, h3]
  dsimp only
  rw [if_neg h4]

/- ## Shared facts for the claims -/

theorem jsonErr_message_ne (k : JsonErrKind) : k.message ≠ "" := by cases k <;> decide

theorem schemeOk_ne_empty (url : String) (h : schemeOk url = true) : url ≠ "" := by
  intro he; subst he; exact absurd h (by decide)

theorem pp_call_inv (text method : String) (exec : RequestSpec → ExecOutcome) (spec : RequestSpec)
    (h : (handle_post_put text method exec).call = some spec) :
    ∃ v, spec = ⟨method, (pySplit2 text).getD 1 "", some v⟩ ∧
      json_loads (if (pySplit2 text).length > 2 then (pySplit2 text).getD 2 ""
        else "\x7b\x7d") = .ok v := by
  by_cases h1 : (pySplit2 text).length < 2
  · rw [pp_missing text method exec h1] at h; simp at h
  · by_cases h2 : schemeOk ((pySplit2 text).getD 1 "") = true
    · rcases hj : json_loads (if (pySplit2 text).length > 2 then (pySplit2 text).getD 2 ""
        else "\x7b\x7d") with e | v
      · rw [pp_invalid_json text method exec e h1 h2 hj] at h; simp at h
      · by_cases h4 : method = "POST" ∨ method = "PUT"
        · rw [pp_ok text method exec v h1 h2 hj h4] at h
          have h5 : some (⟨method, (pySplit2 text).getD 1 "", some v⟩ : RequestSpec)
              = some spec := h
          simp only [Option.some.injEq] at h5
          exact ⟨v, h5.symm, rfl⟩
        · rw [pp_unsupported text method exec v h1 h2 hj h4] at h; simp at h
    · rw [pp_invalid_url text method exec h1 (Bool.eq_false_iff.mpr h2)] at h; simp at h

theorem invalidUrl_ne_invalidJson (method : String) (e : JsonErrKind) :
    invalidUrlMsg ≠ ppInvalidJsonMsg method e := by
  intro h
  have hd := congrArg (fun s : String => s.data[8]?) h
  simp only [invalidUrlMsg, ppInvalidJsonMsg, String.data_append] at hd
  have h31 : ("Invalid JSON data provided for ").data.length = 31 := by decide
  rw [List.getElem?_append, if_pos (by simp only [List.length_append, h31]; omega),
    List.getElem?_append, if_pos (by simp only [List.length_append, h31]; omega),
    List.getElem?_append, if_pos (by simp only [List.length_append, h31]; omega),
    List.getElem?_append, if_pos (by rw [h31]; omega)] at hd
  exact absurd hd (by decide)

/- ## Claims -/

/-- C2 (confirmed): the rendered body of a response is the formatted body
truncated at 3500 characters — strictly longer bodies are cut to their first
3500 characters plus the truncation marker, a body of exactly 3500 characters
is untouched; formatted headers are likewise cut at 1000 characters; and the
GET reply applies the truncation to the formatted text
(`truncBody (fmtJsonOrRaw …)`), not to the raw body. -/
theorem c2_truncation_boundary :
    (∀ s : String, 3500 < strLen s →
      truncBody s = strTake s 3500 ++ "\n\n... (response body truncated)") ∧
    (∀ s : String, strLen s ≤ 3500 → truncBody s = s) ∧
    (∀ s : String, 1000 < strLen s →
      truncHeaders s = strTake s 1000 ++ "\n\n... (headers truncated)") ∧
    (∀ s : String, strLen s ≤ 1000 → truncHeaders s = s) ∧
    (∀ (url : String) (r : PyResponse),
      getSuccessReply url r =
        "✅ *GET Response from " ++ url ++ "*\n\n*Status Code:* `" ++ natStr r.status_code ++ " "
          ++ r.reason ++ "`\n\n*Headers:*\n```json\n"
          ++ truncHeaders (dumpsIndent2 (headersJson r.headers))
          ++ "\n```\n\n*Body:*\n```json\n" ++ truncBody (fmtJsonOrRaw r.body) ++ "\n```") := by
  refine ⟨?_, ?_, ?_, ?_, fun url r => rfl⟩
  · intro s h; rw [truncBody, if_pos (by omega)]
  · intro s h; rw [truncBody, if_neg (by omega)]
  · intro s h; rw [truncHeaders, if_pos (by omega)]
  · intro s h; rw [truncHeaders, if_neg (by omega)]

/-- Witness for C2 at the boundary: a 3501-character body is cut to its first
3500 characters plus the marker, a 3500-character body is untouched. -/
theorem c2_truncation_boundary_witness :
    3500 < strLen ⟨List.replicate 3501 'a'⟩ ∧
    truncBody ⟨List.replicate 3501 'a'⟩
      = strTake ⟨List.replicate 3501 'a'⟩ 3500 ++ "\n\n... (response body truncated)" ∧
    strLen ⟨List.replicate 3500 'a'⟩ ≤ 3500 ∧
    truncBody ⟨List.replicate 3500 'a'⟩ = ⟨List.replicate 3500 'a'⟩ := by
  have h1 : strLen ⟨List.replicate 3501 'a'⟩ = 3501 := by
    show (List.replicate 3501 'a').length = 3501
    exact List.length_replicate ..
  have h2 : strLen ⟨List.replicate 3500 'a'⟩ = 3500 := by
    show (List.replicate 3500 'a').length = 3500
    exact List.length_replicate ..
  exact ⟨by omega, c2_truncation_boundary.1 _ (by omega), by omega,
    c2_truncation_boundary.2.1 _ (by omega)⟩

/-- C3 (confirmed): a URL argument that does not begin with `http://` or
`https://` makes each handler reply with the invalid-URL message and perform
no network call; conversely every request passed to the network oracle has a
scheme-validated, non-empty URL. -/
theorem c3_scheme_validation :
    (∀ (url : String) (rest : List String) (exec : RequestSpec → ExecOutcome),
      schemeOk url = false → handle_get (url :: rest) exec = ⟨[invalidUrlMsg], none⟩) ∧
    (∀ (url : String) (rest : List String) (exec : RequestSpec → ExecOutcome),
      schemeOk url = false → handle_delete (url :: rest) exec = ⟨[invalidUrlMsg], none⟩) ∧
    (∀ (text method : String) (exec : RequestSpec → ExecOutcome),
      ¬ (pySplit2 text).length < 2 → schemeOk ((pySplit2 text).getD 1 "") = false →
      handle_post_put text method exec = ⟨[invalidUrlMsg], none⟩) ∧
    (∀ (args : List String) (exec : RequestSpec → ExecOutcome) (spec : RequestSpec),
      (handle_get args exec).call = some spec → schemeOk spec.url = true ∧ spec.url ≠ "") ∧
    (∀ (args : List String) (exec : RequestSpec → ExecOutcome) (spec : RequestSpec),
      (handle_delete args exec).call = some spec → schemeOk spec.url = true ∧ spec.url ≠ "") ∧
    (∀ (text method : String) (exec : RequestSpec → ExecOutcome) (spec : RequestSpec),
      (handle_post_put text method exec).call = some spec →
      schemeOk spec.url = true ∧ spec.url ≠ "") := by
  refine ⟨fun url rest exec h => get_invalid url rest exec h,
    fun url rest exec h => delete_invalid url rest exec h,
    fun text method exec h1 h2 => pp_invalid_url text method exec h1 h2, ?_, ?_, ?_⟩
  · intro args exec spec h
    match args with
    | [] => rw [get_missing] at h; simp at h
    | url :: rest =>
      by_cases hs : schemeOk url = true
      · rw [get_ok url rest exec hs] at h
        have h5 : some (⟨"GET", url, none⟩ : RequestSpec) = some spec := h
        simp only [Option.some.injEq] at h5
        subst h5
        exact ⟨hs, schemeOk_ne_empty url hs⟩
      · rw [get_invalid url rest exec (Bool.eq_false_iff.mpr hs)] at h; simp at h
  · intro args exec spec h
    match args with
    | [] => rw [delete_missing] at h; simp at h
    | url :: rest =>
      by_cases hs : schemeOk url = true
      · rw [delete_ok url rest exec hs] at h
        have h5 : some (⟨"DELETE", url, none⟩ : RequestSpec) = some spec := h
        simp only [Option.some.injEq] at h5
        subst h5
        exact ⟨hs, schemeOk_ne_empty url hs⟩
      · rw [delete_invalid url rest exec (Bool.eq_false_iff.mpr hs)] at h; simp at h
  · intro text method exec spec h
    obtain ⟨v, hspec, _⟩ := pp_call_inv text method exec spec h
    have h2 : schemeOk ((pySplit2 text).getD 1 "") = true := by
      by_contra hs
      have h2f : schemeOk ((pySplit2 text).getD 1 "") = false := Bool.eq_false_iff.mpr hs
      by_cases h1 : (pySplit2 text).length < 2
      · rw [pp_missing text method exec h1] at h; simp at h
      · rw [pp_invalid_url text method exec h1 h2f] at h; simp at h
    subst hspec
    exact ⟨h2, schemeOk_ne_empty _ h2⟩

/-- Witness for C3: a `ftp://` URL is rejected by all three handlers with
the invalid-URL reply and no call, at concrete inputs. -/
theorem c3_scheme_validation_witness :
    handle_get ["ftp://x"] execNone = ⟨[invalidUrlMsg], none⟩ ∧
    handle_delete ["ftp://x"] execNone = ⟨[invalidUrlMsg], none⟩ ∧
    handle_post_put "/put ftp://x \x7b\x7d" "PUT" execNone = ⟨[invalidUrlMsg], none⟩ := by
  exact ⟨c3_scheme_validation.1 "ftp://x" [] execNone (by decide),
    c3_scheme_validation.2.1 "ftp://x" [] execNone (by decide),
    c3_scheme_validation.2.2.1 "/put ftp://x \x7b\x7d" "PUT" execNone (by decide) (by decide)⟩

/-- C5 (confirmed): the serialized header block appears in the GET reply
(exhibited as an explicit infix), while the POST/PUT reply is invariant under
the response headers (the source computes the formatted headers but leaves the
header block commented out), the DELETE reply is likewise independent of the
headers, and on concrete responses the POST and DELETE replies contain no
`*Headers:*` section while the claim's GET infix is exhibited in the first
conjunct. -/
theorem c5_headers_only_get :
    (∀ (url : String) (r : PyResponse), ∃ pre suf,
      getSuccessReply url r =
        pre ++ ("*Headers:*\n```json\n" ++ truncHeaders (dumpsIndent2 (headersJson r.headers))
          ++ "\n```") ++ suf) ∧
    (∀ (method url : String) (sc : Nat) (reason : String) (hs₁ hs₂ : List (String × String))
      (body : String),
      ppSuccessReply method url ⟨sc, reason, hs₁, body⟩
        = ppSuccessReply method url ⟨sc, reason, hs₂, body⟩) ∧
    (∀ (url : String) (sc : Nat) (reason : String) (hs₁ hs₂ : List (String × String))
      (body : String),
      deleteSuccessReply url ⟨sc, reason, hs₁, body⟩ = deleteSuccessReply url ⟨sc, reason, hs₂, body⟩) ∧
    hasSub "*Headers:*".data (ppSuccessReply "POST" "http://a" ⟨201, "Created",
      [("Content-Type", "application/json")], ""⟩).data = false ∧
    hasSub "*Headers:*".data (deleteSuccessReply "http://a" ⟨204, "No Content",
      [("Content-Type", "application/json")], ""⟩).data = false := by
  refine ⟨?_, fun method url sc reason hs₁ hs₂ body => rfl,
    fun url sc reason hs₁ hs₂ body => rfl, by decide, by decide⟩
  intro url r
  refine ⟨"✅ *GET Response from " ++ url ++ "*\n\n*Status Code:* `" ++ natStr r.status_code
      ++ " " ++ r.reason ++ "`\n\n",
    "\n\n*Body:*\n```json\n" ++ truncBody (fmtJsonOrRaw r.body) ++ "\n```", ?_⟩
  simp only [getSuccessReply]
  rw [show ("`\n\n*Headers:*\n```json\n" : String) = "`\n\n" ++ "*Headers:*\n```json\n" from
      by decide,
    show ("\n```\n\n*Body:*\n```json\n" : String) = "\n```" ++ "\n\n*Body:*\n```json\n" from
      by decide]
  simp only [String.append_assoc]

/-- C6 (confirmed): a DELETE response with no content renders the literal
no-body placeholder in the body block, and the placeholder is a non-empty
string, distinct from rendering an empty block. -/
theorem c6_delete_empty_body :
    (∀ body : String, body = "" → deleteShownBody body = "(No response body)") ∧
    "(No response body)" ≠ "" ∧
    (∀ (url : String) (r : PyResponse), r.body = "" →
      deleteSuccessReply url r =
        "✅ *DELETE Response from " ++ url ++ "*\n\n*Status Code:* `" ++ natStr r.status_code
          ++ " " ++ r.reason ++ "`\n\n*Body:*\n```\n" ++ "(No response body)" ++ "\n```") := by
  refine ⟨?_, by decide, ?_⟩
  · intro body h; subst h; rfl
  · intro url r h
    simp only [deleteSuccessReply, h, show deleteShownBody "" = "(No response body)" from rfl]

/-- Witness for C6: a concrete `204 No Content` DELETE response with empty
body renders the placeholder body block. -/
theorem c6_delete_empty_body_witness :
    deleteSuccessReply "http://example.com/thing" ⟨204, "No Content", [], ""⟩ =
      "✅ *DELETE Response from " ++ "http://example.com/thing"
        ++ "*\n\n*Status Code:* `" ++ natStr 204 ++ " " ++ "No Content"
        ++ "`\n\n*Body:*\n```\n" ++ "(No response body)" ++ "\n```" :=
  c6_delete_empty_body.2.2 "http://example.com/thing" ⟨204, "No Content", [], ""⟩ rfl

/-- C1 counterexample: the claim says the POST/PUT parser splits the raw text
on whitespace, so on the tab-separated text `/post<TAB>http://example.com`
the parser it describes extracts the URL (and the default `{}` payload), yet
the code — which splits on the space character only — replies with the
missing-URL usage message and performs no network call. -/
theorem c1_whitespace_split_counterexample :
    parsePPClaim "/post\thttp://example.com" = .ok ("http://example.com", "\x7b\x7d") ∧
    handle_post_put "/post\thttp://example.com" "POST" execNone = ⟨[ppUsageMsg "POST"], none⟩ ∧
    (handle_post_put "/post\thttp://example.com" "POST" execNone).call = none :=
  ⟨rfl, rfl, rfl⟩

/-- C1 (corrected): the POST/PUT handler splits the raw text on the ASCII
space character (at most twice, per Python `split(' ', 2)`), not on general
whitespace, into at most three parts; fewer than two parts yield the
missing-URL usage reply with no network call; with exactly two parts the
payload defaults to `{}` (sent body `Json.obj []`); with three parts the
third part is the JSON payload text. -/
theorem c1_space_split_amended :
    (∀ text : String, (pySplit2 text).length ≤ 3) ∧
    (∀ (text method : String) (exec : RequestSpec → ExecOutcome),
      (pySplit2 text).length < 2 →
      handle_post_put text method exec = ⟨[ppUsageMsg method], none⟩) ∧
    (∀ (text method : String) (exec : RequestSpec → ExecOutcome),
      (pySplit2 text).length = 2 → schemeOk ((pySplit2 text).getD 1 "") = true →
      method = "POST" ∨ method = "PUT" →
      (handle_post_put text method exec).call
        = some ⟨method, (pySplit2 text).getD 1 "", some (.obj [])⟩) ∧
    (∀ (text method : String) (exec : RequestSpec → ExecOutcome) (v : Json),
      (pySplit2 text).length = 3 → schemeOk ((pySplit2 text).getD 1 "") = true →
      json_loads ((pySplit2 text).getD 2 "") = .ok v →
      method = "POST" ∨ method = "PUT" →
      (handle_post_put text method exec).call
        = some ⟨method, (pySplit2 text).getD 1 "", some v⟩) := by
  refine ⟨?_, fun text method exec h => pp_missing text method exec h, ?_, ?_⟩
  · intro text
    rcases hp : pySplitAll text with _ | ⟨a, _ | ⟨b, _ | ⟨c, r⟩⟩⟩ <;> simp [pySplit2, hp]
  · intro text method exec hlen hscheme hm
    have hj : json_loads (if (pySplit2 text).length > 2 then (pySplit2 text).getD 2 ""
        else "\x7b\x7d") = .ok (.obj []) := by
      rw [if_neg (by omega)]
      rfl
    rw [pp_ok text method exec (.obj []) (by omega) hscheme hj hm]
  · intro text method exec v hlen hscheme hload hm
    have hj : json_loads (if (pySplit2 text).length > 2 then (pySplit2 text).getD 2 ""
        else "\x7b\x7d") = .ok v := by
      rw [if_pos (by omega)]
      exact hload
    rw [pp_ok text method exec v (by omega) hscheme hj hm]

/-- Witness for C1 (amended): a two-part `/post` text defaults the payload to
`{}`, and a three-part text sends its parsed third part. -/
theorem c1_space_split_amended_witness :
    (handle_post_put "/post http://a" "POST" execNone).call
      = some ⟨"POST", (pySplit2 "/post http://a").getD 1 "", some (.obj [])⟩ ∧
    (handle_post_put "/post http://a \x7b\"k\": 1\x7d" "PUT" execNone).call
      = some ⟨"PUT", (pySplit2 "/post http://a \x7b\"k\": 1\x7d").getD 1 "",
          some (.obj [("k", .num 1)])⟩ :=
  ⟨c1_space_split_amended.2.2.1 "/post http://a" "POST" execNone (by decide) (by decide)
      (Or.inl rfl),
    c1_space_split_amended.2.2.2 "/post http://a \x7b\"k\": 1\x7d" "PUT" execNone
      (.obj [("k", .num 1)]) (by decide) (by decide) rfl (Or.inr rfl)⟩

/-- C4 counterexample: a successful `/get` invocation sends two messages (the
progress notice and the formatted reply), not exactly one. -/
theorem c4_single_reply_counterexample :
    (invoke_get "/get http://example.com" execCreated).sends.length = 2 ∧
    ¬ (invoke_get "/get http://example.com" execCreated).sends.length = 1 :=
  ⟨rfl, by decide⟩

/-- C4 (corrected): each pipeline sends exactly one reply on the paths where
no network call occurs, and exactly two replies — the progress notice and the
formatted result — on the paths that perform the network call (for POST/PUT,
under the methods the dispatcher actually passes). -/
theorem c4_reply_count_amended :
    (∀ (args : List String) (exec : RequestSpec → ExecOutcome),
      ((handle_get args exec).sends.length = 1 ∧ (handle_get args exec).call = none) ∨
      ((handle_get args exec).sends.length = 2 ∧ (handle_get args exec).call ≠ none)) ∧
    (∀ (args : List String) (exec : RequestSpec → ExecOutcome),
      ((handle_delete args exec).sends.length = 1 ∧ (handle_delete args exec).call = none) ∨
      ((handle_delete args exec).sends.length = 2 ∧ (handle_delete args exec).call ≠ none)) ∧
    (∀ (text method : String) (exec : RequestSpec → ExecOutcome),
      method = "POST" ∨ method = "PUT" →
      ((handle_post_put text method exec).sends.length = 1
        ∧ (handle_post_put text method exec).call = none) ∨
      ((handle_post_put text method exec).sends.length = 2
        ∧ (handle_post_put text method exec).call ≠ none)) := by
  refine ⟨?_, ?_, ?_⟩
  · intro args exec
    match args with
    | [] => exact Or.inl ⟨rfl, rfl⟩
    | url :: rest =>
      by_cases hs : schemeOk url = true
      · right
        rw [get_ok url rest exec hs]
        exact ⟨rfl, by simp⟩
      · left
        rw [get_invalid url rest exec (Bool.eq_false_iff.mpr hs)]
        exact ⟨rfl, rfl⟩
  · intro args exec
    match args with
    | [] => exact Or.inl ⟨rfl, rfl⟩
    | url :: rest =>
      by_cases hs : schemeOk url = true
      · right
        rw [delete_ok url rest exec hs]
        exact ⟨rfl, by simp⟩
      · left
        rw [delete_invalid url rest exec (Bool.eq_false_iff.mpr hs)]
        exact ⟨rfl, rfl⟩
  · intro text method exec hm
    by_cases h1 : (pySplit2 text).length < 2
    · left
      rw [pp_missing text method exec h1]
      exact ⟨rfl, rfl⟩
    · by_cases h2 : schemeOk ((pySplit2 text).getD 1 "") = true
      · rcases hj : json_loads (if (pySplit2 text).length > 2 then (pySplit2 text).getD 2 ""
          else "\x7b\x7d") with e | v
        · left
          rw [pp_invalid_json text method exec e h1 h2 hj]
          exact ⟨rfl, rfl⟩
        · right
          rw [pp_ok text method exec v h1 h2 hj hm]
          exact ⟨rfl, by simp⟩
      · left
        rw [pp_invalid_url text method exec h1 (Bool.eq_false_iff.mpr h2)]
        exact ⟨rfl, rfl⟩

/-- Witness for C4 (amended) at a concrete POST invocation. -/
theorem c4_reply_count_amended_witness :
    ((handle_post_put "/post http://a" "POST" execNone).sends.length = 1
      ∧ (handle_post_put "/post http://a" "POST" execNone).call = none) ∨
    ((handle_post_put "/post http://a" "POST" execNone).sends.length = 2
      ∧ (handle_post_put "/post http://a" "POST" execNone).call ≠ none) :=
  c4_reply_count_amended.2.2 "/post http://a" "POST" execNone (Or.inl rfl)

/-- C9 counterexample: the text `/post ` (a space after the command, no URL
token at all) makes the POST handler reply with the invalid-URL message — the
empty string between the two splits fails the scheme check — not with the
missing-URL usage message the claim requires. -/
theorem c9_missing_url_counterexample :
    wsTokens "/post " = ["/post"] ∧
    handle_post_put "/post " "POST" execNone = ⟨[invalidUrlMsg], none⟩ ∧
    invalidUrlMsg ≠ ppUsageMsg "POST" :=
  ⟨rfl, rfl, by decide⟩

/-- C9 (corrected): for `/get` and `/delete`, any text without a URL token
yields the missing-URL reply and no call; for `/post`/`/put` the missing-URL
reply is produced exactly when the text contains no space (fewer than two
space-split parts), while a text with a space but no valid URL in its second
space-split field — in particular one with no URL token at all — yields the
invalid-URL reply; in every such case no network call occurs. -/
theorem c9_missing_url_amended :
    (∀ (text : String) (exec : RequestSpec → ExecOutcome), (wsTokens text).length ≤ 1 →
      invoke_get text exec = ⟨[getUsageMsg], none⟩) ∧
    (∀ (text : String) (exec : RequestSpec → ExecOutcome), (wsTokens text).length ≤ 1 →
      invoke_delete text exec = ⟨[deleteUsageMsg], none⟩) ∧
    (∀ (text method : String) (exec : RequestSpec → ExecOutcome),
      (pySplit2 text).length < 2 →
      handle_post_put text method exec = ⟨[ppUsageMsg method], none⟩) ∧
    (∀ (text method : String) (exec : RequestSpec → ExecOutcome),
      ¬ (pySplit2 text).length < 2 → schemeOk ((pySplit2 text).getD 1 "") = false →
      handle_post_put text method exec = ⟨[invalidUrlMsg], none⟩) := by
  refine ⟨?_, ?_, fun text method exec h => pp_missing text method exec h,
    fun text method exec h1 h2 => pp_invalid_url text method exec h1 h2⟩
  · intro text exec h
    simp only [invoke_get, telegram_args]
    rw [show (wsTokens text).drop 1 = [] from List.drop_eq_nil_iff.mpr h]
    exact get_missing exec
  · intro text exec h
    simp only [invoke_delete, telegram_args]
    rw [show (wsTokens text).drop 1 = [] from List.drop_eq_nil_iff.mpr h]
    exact delete_missing exec

/-- Witness for C9 (amended) at concrete command texts. -/
theorem c9_missing_url_amended_witness :
    invoke_get "/get" execNone = ⟨[getUsageMsg], none⟩ ∧
    invoke_delete "/delete" execNone = ⟨[deleteUsageMsg], none⟩ ∧
    handle_post_put "/post" "POST" execNone = ⟨[ppUsageMsg "POST"], none⟩ ∧
    handle_post_put "/put " "PUT" execNone = ⟨[invalidUrlMsg], none⟩ :=
  ⟨c9_missing_url_amended.1 "/get" execNone (by decide),
    c9_missing_url_amended.2.1 "/delete" execNone (by decide),
    c9_missing_url_amended.2.2.1 "/post" "POST" execNone (by decide),
    c9_missing_url_amended.2.2.2 "/put " "PUT" execNone (by decide) (by decide)⟩

/-- C7 (confirmed): for POST/PUT the body actually sent is the parsed JSON
value re-encoded with `json.dumps` (not the raw user text); parsing the sent
body reproduces the user's payload value, and any two invocations whose
payloads parse to the same value send identical bodies, so input formatting
does not propagate. -/
theorem c7_payload_roundtrip :
    ∀ (text method : String) (exec : RequestSpec → ExecOutcome) (spec : RequestSpec) (v : Json),
      (handle_post_put text method exec).call = some spec → spec.body = some v →
      sentBody spec = json_dumps v ∧ json_loads (sentBody spec) = .ok v ∧
      (∀ (text2 method2 : String) (exec2 : RequestSpec → ExecOutcome) (spec2 : RequestSpec),
        (handle_post_put text2 method2 exec2).call = some spec2 → spec2.body = some v →
        sentBody spec2 = sentBody spec) := by
  intro text method exec spec v hc hb
  obtain ⟨v1, hspec, hj⟩ := pp_call_inv text method exec spec hc
  subst hspec
  have hb' : some v1 = some v := hb
  obtain rfl : v1 = v := Option.some_inj.mp hb'
  refine ⟨rfl, ?_, ?_⟩
  · rw [show sentBody ⟨method, (pySplit2 text).getD 1 "", some v1⟩ = json_dumps v1 from rfl]
    exact json_loads_dumps v1 (json_loads_wf _ v1 hj)
  · intro text2 method2 exec2 spec2 hc2 hb2
    obtain ⟨v2, hs2, _⟩ := pp_call_inv text2 method2 exec2 spec2 hc2
    subst hs2
    have hb2' : some v2 = some v1 := hb2
    obtain rfl : v2 = v1 := Option.some_inj.mp hb2'
    rfl

/-- Witness for C7: the body sent for the payload text `{"k": 1}` is its
re-serialization, and parsing it gives back the payload value. -/
theorem c7_payload_roundtrip_witness :
    sentBody ⟨"POST", "http://a", some (.obj [("k", .num 1)])⟩
        = json_dumps (.obj [("k", .num 1)]) ∧
    json_loads (sentBody ⟨"POST", "http://a", some (.obj [("k", .num 1)])⟩)
        = .ok (.obj [("k", .num 1)]) := by
  have h := c7_payload_roundtrip "/post http://a \x7b\"k\": 1\x7d" "POST" execNone
    ⟨"POST", "http://a", some (.obj [("k", .num 1)])⟩ (.obj [("k", .num 1)]) rfl rfl
  exact ⟨h.1, h.2.1⟩

/-- C8 (confirmed): a POST/PUT command whose payload text is not well-formed
JSON makes the handler reply with the invalid-JSON message embedding the
parse error's detail, the detail is non-empty, and no network call occurs. -/
theorem c8_invalid_json_no_call :
    ∀ (text method : String) (exec : RequestSpec → ExecOutcome) (e : JsonErrKind),
      ¬ (pySplit2 text).length < 2 → schemeOk ((pySplit2 text).getD 1 "") = true →
      json_loads (if (pySplit2 text).length > 2 then (pySplit2 text).getD 2 ""
        else "\x7b\x7d") = .error e →
      handle_post_put text method exec = ⟨[ppInvalidJsonMsg method e], none⟩ ∧
      e.message ≠ "" ∧ (handle_post_put text method exec).call = none := by
  intro text method exec e h1 h2 h3
  have hmain := pp_invalid_json text method exec e h1 h2 h3
  exact ⟨hmain, jsonErr_message_ne e, by rw [hmain]⟩

/-- Witness for C8: the malformed payload `nope` yields the invalid-JSON
reply with the non-empty `Expecting value` detail and no call. -/
theorem c8_invalid_json_no_call_witness :
    handle_post_put "/post http://a nope" "POST" execNone
      = ⟨[ppInvalidJsonMsg "POST" .expectingValue], none⟩ ∧
    JsonErrKind.message .expectingValue ≠ "" :=
  ⟨(c8_invalid_json_no_call "/post http://a nope" "POST" execNone .expectingValue
      (by decide) (by decide) rfl).1,
    (c8_invalid_json_no_call "/post http://a nope" "POST" execNone .expectingValue
      (by decide) (by decide) rfl).2.1⟩

/-- C10 (confirmed): when the URL of a POST/PUT command fails the scheme
check, the result is exactly the invalid-URL reply with no network call —
whatever the payload text contains, so the payload is never reflected in the
outcome — and the invalid-URL reply differs from every invalid-JSON reply, so
a command with both an invalid URL and malformed JSON reports only the
InvalidURL error. -/
theorem c10_url_check_precedes_json :
    ∀ (text method : String) (exec : RequestSpec → ExecOutcome),
      ¬ (pySplit2 text).length < 2 → schemeOk ((pySplit2 text).getD 1 "") = false →
      handle_post_put text method exec = ⟨[invalidUrlMsg], none⟩ ∧
      (∀ e : JsonErrKind, invalidUrlMsg ≠ ppInvalidJsonMsg method e) := by
  intro text method exec h1 h2
  exact ⟨pp_invalid_url text method exec h1 h2, fun e => invalidUrl_ne_invalidJson method e⟩

/-- Witness for C10: a command with both an invalid URL and malformed JSON
(`{bad` does not parse) reports only the invalid-URL error. -/
theorem c10_url_check_precedes_json_witness :
    json_loads "\x7bbad" = .error .expectingPropertyName ∧
    handle_post_put "/post nourl \x7bbad" "POST" execNone = ⟨[invalidUrlMsg], none⟩ :=
  ⟨rfl, (c10_url_check_precedes_json "/post nourl \x7bbad" "POST" execNone
      (by decide) (by decide)).1⟩
